import Mathlib

/-!
Verification development for the stream-manifest downloader
(`galata_ai.py`).  The program text is shallowly embedded: strings are
`List Char` (`Chars`), Python string primitives (`str.strip`, `str.split`,
`str.join`, `str.startswith`, substring search) are modelled as executable
Lean functions, the CPython `urllib.parse.urljoin` algorithm is embedded
directly from its source, and the job runner / batch loop are embedded as
pure functions over an explicit effect environment (HTTP fetches and
filesystem calls become `Except`-valued oracle functions, and the performed
side effects are returned as an explicit log).
-/

namespace GalataAi

abbrev Chars := List Char

/-- The double-quote character (written numerically to keep the source free
of escaped quotes). -/
def quoteC : Char := Char.ofNat 34

/-- The apostrophe character. -/
def aposC : Char := Char.ofNat 39

/-- Python `str.strip()` whitespace set (Unicode whitespace): ASCII
whitespace, the C1 separators, next-line, no-break space, and the Unicode
space separators. -/
def isPySpace (c : Char) : Bool :=
  let n := c.toNat
  n == 0x20 || n == 0x9 || n == 0xa || n == 0xd || n == 0xb || n == 0xc ||
  n == 0x1c || n == 0x1d || n == 0x1e || n == 0x1f ||
  n == 0x85 || n == 0xa0 || n == 0x1680 ||
  (decide (0x2000 ≤ n) && decide (n ≤ 0x200a)) ||
  n == 0x2028 || n == 0x2029 || n == 0x202f || n == 0x205f || n == 0x3000

/-- A character that is neither whitespace nor a control character: such
characters pass through `strip` and through all cleaning steps of
`urlsplit` untouched. -/
def okCharB (c : Char) : Bool := decide (0x20 < c.toNat) && !(isPySpace c)

/-- Every character of the string is a plain (non-space, non-control)
character. -/
def okStringB (l : Chars) : Bool := l.all okCharB

/-- ASCII lower-casing of a single character, as Python `str.lower` acts on
the ASCII scheme characters it is applied to inside `urlsplit`. -/
def lowerA : Char → Char
  | 'A' => 'a' | 'B' => 'b' | 'C' => 'c' | 'D' => 'd' | 'E' => 'e'
  | 'F' => 'f' | 'G' => 'g' | 'H' => 'h' | 'I' => 'i' | 'J' => 'j'
  | 'K' => 'k' | 'L' => 'l' | 'M' => 'm' | 'N' => 'n' | 'O' => 'o'
  | 'P' => 'p' | 'Q' => 'q' | 'R' => 'r' | 'S' => 's' | 'T' => 't'
  | 'U' => 'u' | 'V' => 'v' | 'W' => 'w' | 'X' => 'x' | 'Y' => 'y'
  | 'Z' => 'z'
  | c => c

/-- Python `str.split(sep)` for a one-character separator: keeps empty
pieces, always returns at least one piece. -/
def splitCh (c : Char) : Chars → List Chars
  | [] => [[]]
  | a :: as =>
    if a = c then [] :: splitCh c as
    else
      match splitCh c as with
      | [] => [[a]]
      | b :: bs => (a :: b) :: bs

/-- Python `sep.join(pieces)` for a one-character separator. -/
def joinCh (c : Char) : List Chars → Chars
  | [] => []
  | [x] => x
  | x :: xs => x ++ c :: joinCh c xs

/-- Python `str.strip()` (strip Unicode whitespace from both ends). -/
def pyStrip (l : Chars) : Chars :=
  ((l.dropWhile isPySpace).reverse.dropWhile isPySpace).reverse

/-- Python `str.startswith(p)`. -/
def startsL : Chars → Chars → Bool
  | [], _ => true
  | _ :: _, [] => false
  | a :: as, b :: bs => decide (a = b) && startsL as bs

/-- Substring occurrence test: `hasSeq p l` holds when `p` occurs
contiguously inside `l` (Python `p in l`). -/
def hasSeq (p : Chars) : Chars → Bool
  | [] => startsL p []
  | c :: rest => startsL p (c :: rest) || hasSeq p rest

/-! ### Lemmas about the string primitives -/

theorem startsL_iff (p : Chars) : ∀ l, startsL p l = true ↔ ∃ t, l = p ++ t := by
  induction p with
  | nil =>
    intro l
    simp [startsL]
  | cons a as ih =>
    intro l
    cases l with
    | nil =>
      simp [startsL]
    | cons b bs =>
      simp only [startsL, Bool.and_eq_true, decide_eq_true_eq, ih bs]
      constructor
      · rintro ⟨rfl, t, rfl⟩
        exact ⟨t, rfl⟩
      · rintro ⟨t, h⟩
        cases h
        exact ⟨rfl, t, rfl⟩

theorem startsL_append (p t : Chars) : startsL p (p ++ t) = true :=
  (startsL_iff p (p ++ t)).2 ⟨t, rfl⟩

theorem hasSeq_iff (p : Chars) : ∀ l, hasSeq p l = true ↔ ∃ a b, l = a ++ p ++ b := by
  intro l
  induction l with
  | nil =>
    simp only [hasSeq, startsL_iff]
    constructor
    · rintro ⟨t, h⟩
      exact ⟨[], t, by simpa using h⟩
    · rintro ⟨a, b, h⟩
      obtain ⟨rfl, rfl, rfl⟩ : a = [] ∧ p = [] ∧ b = [] := by simpa using h.symm
      exact ⟨[], rfl⟩
  | cons c rest ih =>
    simp only [hasSeq, Bool.or_eq_true, startsL_iff, ih]
    constructor
    · rintro (⟨t, h⟩ | ⟨a, b, h⟩)
      · exact ⟨[], t, by simpa using h⟩
      · exact ⟨c :: a, b, by simp [h]⟩
    · rintro ⟨a, b, h⟩
      cases a with
      | nil => exact Or.inl ⟨b, by simpa using h⟩
      | cons x xs =>
        simp only [List.cons_append, List.cons.injEq] at h
        exact Or.inr ⟨xs, b, by simp [h.2]⟩

theorem mem_of_mem_dropWhile {p : Char → Bool} {c : Char} :
    ∀ {l : Chars}, c ∈ l.dropWhile p → c ∈ l := by
  intro l h
  induction l with
  | nil => simpa [List.dropWhile] using h
  | cons a as ih =>
    rw [List.dropWhile_cons] at h
    by_cases hp : p a
    · simp only [hp, if_true] at h
      exact List.mem_cons_of_mem _ (ih h)
    · simp only [hp, if_false] at h
      exact h

theorem splitCh_ne_nil (c : Char) : ∀ l, splitCh c l ≠ [] := by
  intro l
  induction l with
  | nil => simp [splitCh]
  | cons a as ih =>
    simp only [splitCh]
    split
    · simp
    · split <;> simp

theorem not_mem_of_mem_splitCh (c : Char) :
    ∀ {l : Chars} {p : Chars}, p ∈ splitCh c l → c ∉ p := by
  intro l
  induction l with
  | nil =>
    intro p hp
    simp only [splitCh, List.mem_singleton] at hp
    simp [hp]
  | cons a as ih =>
    intro p hp
    simp only [splitCh] at hp
    by_cases hac : a = c
    · simp only [hac, if_true] at hp
      rcases List.mem_cons.1 hp with rfl | hmem
      · simp
      · exact ih hmem
    · simp only [hac, if_false] at hp
      cases hsp : splitCh c as with
      | nil => exact absurd hsp (splitCh_ne_nil c as)
      | cons b bs =>
        rw [hsp] at hp
        rcases List.mem_cons.1 hp with rfl | hmem
        · intro hmemc
          rcases List.mem_cons.1 hmemc with rfl | hmemb
          · exact hac rfl
          · exact ih (hsp ▸ List.mem_cons_self b bs) hmemb
        · exact ih (hsp ▸ List.mem_cons_of_mem b hmem)

theorem mem_of_mem_splitCh (c : Char) :
    ∀ {l : Chars} {p : Chars} {x : Char}, p ∈ splitCh c l → x ∈ p → x ∈ l := by
  intro l
  induction l with
  | nil =>
    intro p x hp hx
    simp only [splitCh, List.mem_singleton] at hp
    subst hp
    simp at hx
  | cons a as ih =>
    intro p x hp hx
    simp only [splitCh] at hp
    by_cases hac : a = c
    · simp only [hac, if_true] at hp
      rcases List.mem_cons.1 hp with rfl | hmem
      · simp at hx
      · exact List.mem_cons_of_mem _ (ih hmem hx)
    · simp only [hac, if_false] at hp
      cases hsp : splitCh c as with
      | nil => exact absurd hsp (splitCh_ne_nil c as)
      | cons b bs =>
        rw [hsp] at hp
        rcases List.mem_cons.1 hp with rfl | hmem
        · rcases List.mem_cons.1 hx with rfl | hxb
          · exact List.mem_cons_self _ _
          · exact List.mem_cons_of_mem _ (ih (hsp ▸ List.mem_cons_self b bs) hxb)
        · exact List.mem_cons_of_mem _ (ih (hsp ▸ List.mem_cons_of_mem b hmem) hx)

theorem splitCh_eq_single (c : Char) :
    ∀ {xs : Chars}, c ∉ xs → splitCh c xs = [xs] := by
  intro xs
  induction xs with
  | nil => intro _; rfl
  | cons a as ih =>
    intro h
    have hac : ¬ a = c := fun hh => h (hh ▸ List.mem_cons_self a as)
    have has : c ∉ as := fun hh => h (List.mem_cons_of_mem a hh)
    simp only [splitCh, hac, if_false, ih has]

theorem splitCh_append (c : Char) (rest : Chars) :
    ∀ {xs : Chars}, c ∉ xs → splitCh c (xs ++ c :: rest) = xs :: splitCh c rest := by
  intro xs
  induction xs with
  | nil => intro _; simp [splitCh]
  | cons a as ih =>
    intro h
    have hac : ¬ a = c := fun hh => h (hh ▸ List.mem_cons_self a as)
    have has : c ∉ as := fun hh => h (List.mem_cons_of_mem a hh)
    simp only [List.cons_append, splitCh, hac, if_false]
    rw [List.append_eq, ih has]

theorem splitCh_joinCh (c : Char) :
    ∀ {ps : List Chars}, ps ≠ [] → (∀ p ∈ ps, c ∉ p) →
      splitCh c (joinCh c ps) = ps := by
  intro ps
  induction ps with
  | nil => intro h; exact absurd rfl h
  | cons x xs ih =>
    intro _ hall
    cases xs with
    | nil =>
      simp only [joinCh]
      exact splitCh_eq_single c (hall x (List.mem_cons_self _ _))
    | cons y ys =>
      have hx : c ∉ x := hall x (List.mem_cons_self _ _)
      have htail : ∀ p ∈ y :: ys, c ∉ p := fun p hp => hall p (List.mem_cons_of_mem _ hp)
      calc splitCh c (joinCh c (x :: y :: ys))
          = splitCh c (x ++ c :: joinCh c (y :: ys)) := rfl
        _ = x :: splitCh c (joinCh c (y :: ys)) := splitCh_append c _ hx
        _ = x :: (y :: ys) := by rw [ih (by simp) htail]

theorem mem_joinCh (c : Char) :
    ∀ {ps : List Chars} {x : Char}, x ∈ joinCh c ps → x = c ∨ ∃ p ∈ ps, x ∈ p := by
  intro ps
  induction ps with
  | nil => intro x hx; simp [joinCh] at hx
  | cons a as ih =>
    intro x hx
    cases as with
    | nil =>
      simp only [joinCh] at hx
      exact Or.inr ⟨a, List.mem_cons_self _ _, hx⟩
    | cons b bs =>
      simp only [joinCh, List.mem_append, List.mem_cons] at hx
      rcases hx with hmem | rfl | hmem
      · exact Or.inr ⟨a, List.mem_cons_self _ _, hmem⟩
      · exact Or.inl rfl
      · rcases ih hmem with rfl | ⟨p, hp, hxp⟩
        · exact Or.inl rfl
        · exact Or.inr ⟨p, List.mem_cons_of_mem _ hp, hxp⟩

theorem mem_of_mem_pyStrip {c : Char} {l : Chars} (h : c ∈ pyStrip l) : c ∈ l := by
  unfold pyStrip at h
  rw [List.mem_reverse] at h
  have h2 := mem_of_mem_dropWhile h
  rw [List.mem_reverse] at h2
  exact mem_of_mem_dropWhile h2

theorem dropWhile_eq_self_of_all {p : Char → Bool} :
    ∀ {l : Chars}, (∀ c ∈ l, p c = false) → l.dropWhile p = l := by
  intro l h
  cases l with
  | nil => rfl
  | cons a as =>
    rw [List.dropWhile_cons, h a (List.mem_cons_self _ _)]
    simp

theorem not_space_of_ok {c : Char} (h : okCharB c = true) : isPySpace c = false := by
  unfold okCharB at h
  rw [Bool.and_eq_true] at h
  simpa using h.2

theorem pyStrip_eq_self_of_ok {l : Chars} (h : okStringB l = true) : pyStrip l = l := by
  have hall : ∀ c ∈ l, isPySpace c = false := fun c hc =>
    not_space_of_ok ((List.all_eq_true.1 h) c hc)
  unfold pyStrip
  rw [dropWhile_eq_self_of_all hall]
  rw [dropWhile_eq_self_of_all (by intro c hc; exact hall c (List.mem_reverse.1 hc))]
  exact List.reverse_reverse l

theorem head_dropWhile_false {p : Char → Bool} :
    ∀ {l : Chars} {a : Char} {t : Chars}, l.dropWhile p = a :: t → p a = false := by
  intro l
  induction l with
  | nil => intro a t h; simp [List.dropWhile] at h
  | cons x xs ih =>
    intro a t h
    rw [List.dropWhile_cons] at h
    by_cases hp : p x
    · simp only [hp, if_true] at h
      exact ih h
    · simp only [hp, if_false] at h
      cases h
      simpa using hp

/-- Stripping is idempotent. -/
theorem pyStrip_idem (l : Chars) : pyStrip (pyStrip l) = pyStrip l := by
  have key : ∀ m : Chars, m = (l.dropWhile isPySpace).reverse.dropWhile isPySpace →
      pyStrip m.reverse = m.reverse := by
    intro m hm
    unfold pyStrip
    have h1 : m.reverse.dropWhile isPySpace = m.reverse := by
      cases hq : m.reverse with
      | nil => simp
      | cons a t =>
        have hA : l.dropWhile isPySpace =
            a :: (t ++ ((l.dropWhile isPySpace).reverse.takeWhile isPySpace).reverse) := by
          have hsplit := List.takeWhile_append_dropWhile (p := isPySpace)
            (l := (l.dropWhile isPySpace).reverse)
          calc l.dropWhile isPySpace
              = (l.dropWhile isPySpace).reverse.reverse := (List.reverse_reverse _).symm
            _ = ((l.dropWhile isPySpace).reverse.takeWhile isPySpace ++ m).reverse := by
                rw [hm, hsplit]
            _ = m.reverse ++ ((l.dropWhile isPySpace).reverse.takeWhile isPySpace).reverse := by
                rw [List.reverse_append]
            _ = a :: (t ++ ((l.dropWhile isPySpace).reverse.takeWhile isPySpace).reverse) := by
                rw [hq]; simp
        have ha : isPySpace a = false := head_dropWhile_false hA
        rw [List.dropWhile_cons, ha]
        simp
    rw [h1, List.reverse_reverse]
    have h2 : m.dropWhile isPySpace = m := by
      cases hq : m with
      | nil => simp
      | cons a t =>
        have ha : isPySpace a = false := head_dropWhile_false (hm.symm.trans hq)
        rw [List.dropWhile_cons, ha]
        simp
    rw [h2]
  exact key _ rfl

/-! ### Embedding of CPython `urllib.parse` (the parts reached by
`urljoin`), translated from `Lib/urllib/parse.py` of Python 3.11.  The
`allow_fragments` flag is `True` at every call reached from `urljoin`, so
it is not a parameter here.  `urlsplit` can raise `ValueError` (the
bracket checks and `_checknetloc`); the raise paths are embedded
separately as `urlsplitErr` below, and `pyUrlsplit` here gives the
components `urlsplit` returns when it does not raise (every other
statement of `urlsplit` is total). -/

/-- Characters allowed in a URL scheme (`scheme_chars` in
`urllib.parse`). -/
def isSchemeChar (c : Char) : Bool :=
  c.isAlpha || c.isDigit || c = '+' || c = '-' || c = '.'

/-- One of the unsafe bytes (tab, CR, LF) removed everywhere in a URL by
`urlsplit` (`_UNSAFE_URL_BYTES_TO_REMOVE`). -/
def isUnsafeByte (c : Char) : Bool := c = '\t' || c = '\r' || c = '\n'

/-- Character codes in the WHATWG C0-control-or-space class
(`_WHATWG_C0_CONTROL_OR_SPACE`). -/
def isC0OrSpace (c : Char) : Bool := decide (c.toNat ≤ 0x20)

/-- The cleaning `urlsplit` applies to its `url` argument: lstrip
C0-control-or-space, then remove every tab, CR and LF. -/
def cleanUrl (l : Chars) : Chars :=
  (l.dropWhile isC0OrSpace).filter (fun c => !isUnsafeByte c)

/-- The cleaning `urlsplit` applies to its `scheme` argument: strip
C0-control-or-space on both ends, then remove every tab, CR and LF. -/
def cleanScheme (l : Chars) : Chars :=
  (((l.dropWhile isC0OrSpace).reverse.dropWhile isC0OrSpace).reverse).filter
    (fun c => !isUnsafeByte c)

/-- Result record of `urlsplit`. -/
structure SplitResult where
  scheme : Chars
  netloc : Chars
  path : Chars
  query : Chars
  fragment : Chars
deriving DecidableEq

/-- Result record of `urlparse` (adds the `params` component). -/
structure ParseResult where
  scheme : Chars
  netloc : Chars
  path : Chars
  params : Chars
  query : Chars
  fragment : Chars
deriving DecidableEq

/-- Scan for the first colon: `url.find(nonquoted-colon)` together with the
text before and after it. -/
def scanScheme : Chars → Option (Chars × Chars)
  | [] => none
  | c :: rest =>
    if c = ':' then some ([], rest)
    else (scanScheme rest).map (fun pr => (c :: pr.1, pr.2))

/-- Validity test for the candidate scheme text before the first colon
(`i > 0 and url[0].isascii() and url[0].isalpha()` plus the
`scheme_chars` membership loop). -/
def schemeTokValid : Chars → Bool
  | [] => false
  | a :: as => a.isAlpha && as.all isSchemeChar

/-- The `_splitnetloc(url, 2)` helper: the netloc runs from position 2 to
the first of `/`, `?` or `#`. -/
def splitNetlocAt2 (url : Chars) : Chars × Chars :=
  let rest := url.drop 2
  let nl := rest.takeWhile (fun c => !(c = '/' || c = '?' || c = '#'))
  (nl, rest.drop nl.length)

/-- Python `s.split(c, 1)` as used for the `#` and `?` separators; when `c`
does not occur, the second component is empty, which coincides with the
fragment/query staying `''` in the source. -/
def splitFirst (c : Char) : Chars → Chars × Chars
  | [] => ([], [])
  | a :: rest =>
    if a = c then ([], rest)
    else
      let pr := splitFirst c rest
      (a :: pr.1, pr.2)

/-- The scheme-detection step of `urlsplit`: lower-cased scheme and
remaining text when a valid scheme prefix is present, otherwise the
default scheme with the text unchanged.  The scheme-chars loop of the
source runs over `url[:i]`; since `url[0]` is separately required to be an
ASCII letter (and letters are scheme chars), checking `url[1:i]` here is
equivalent. -/
def schemeSplit (url dflt : Chars) : Chars × Chars :=
  match scanScheme url with
  | some (tok, rest) =>
    if schemeTokValid tok then (tok.map lowerA, rest) else (dflt, url)
  | none => (dflt, url)

/-- The netloc-detection step of `urlsplit` (`if url[:2] == '//'`). -/
def netlocSplit (url : Chars) : Chars × Chars :=
  if startsL ['/', '/'] url then splitNetlocAt2 url else ([], url)

/-- `urlsplit(url, scheme)` with `allow_fragments=True`. -/
def pyUrlsplit (url0 scheme0 : Chars) : SplitResult :=
  let url1 := cleanUrl url0
  let dflt := cleanScheme scheme0
  let su := schemeSplit url1 dflt
  let nu := netlocSplit su.2
  let uf := splitFirst '#' nu.2
  let pq := splitFirst '?' uf.1
  ⟨su.1, nu.1, pq.1, pq.2, uf.2⟩

/-- `uses_relative` from `urllib.parse`. -/
def usesRelative : List Chars :=
  (["", "ftp", "http", "gopher", "nntp", "imap", "wais", "file", "https",
    "shttp", "mms", "prospero", "rtsp", "rtsps", "rtspu", "sftp", "svn",
    "svn+ssh", "ws", "wss"]).map String.data

/-- `uses_netloc` from `urllib.parse`. -/
def usesNetloc : List Chars :=
  (["", "ftp", "http", "gopher", "nntp", "telnet", "imap", "wais", "file",
    "mms", "https", "shttp", "snews", "prospero", "rtsp", "rtsps", "rtspu",
    "rsync", "svn", "svn+ssh", "sftp", "nfs", "git", "git+ssh", "ws",
    "wss"]).map String.data

/-- `uses_params` from `urllib.parse`. -/
def usesParams : List Chars :=
  (["", "ftp", "hdl", "prospero", "http", "imap", "https", "shttp", "rtsp",
    "rtsps", "rtspu", "sip", "sips", "mms", "sftp", "tel"]).map String.data

/-- `_splitparams(url)`: split candidate params from the last path
segment. -/
def splitParams (url : Chars) : Chars × Chars :=
  if '/' ∈ url then
    let lastSeg := (url.reverse.takeWhile (fun c => !(c = '/'))).reverse
    if ';' ∈ lastSeg then
      let pr := splitFirst ';' lastSeg
      (url.take (url.length - lastSeg.length) ++ pr.1, pr.2)
    else (url, [])
  else splitFirst ';' url

/-- `urlparse(url, scheme)` with `allow_fragments=True`. -/
def pyUrlparse (url scheme : Chars) : ParseResult :=
  let s := pyUrlsplit url scheme
  if s.scheme ∈ usesParams ∧ ';' ∈ s.path then
    let pr := splitParams s.path
    ⟨s.scheme, s.netloc, pr.1, pr.2, s.query, s.fragment⟩
  else ⟨s.scheme, s.netloc, s.path, [], s.query, s.fragment⟩

/-- The `if url and url[:1] != '/': url = '/' + url` step of
`urlunsplit`. -/
def addRoot (url : Chars) : Chars :=
  if url ≠ [] ∧ ¬ startsL ['/'] url = true then '/' :: url else url

/-- The netloc-recomposition step of `urlunsplit` (`url = '//' +
(netloc or '') + url` under its guard). -/
def addNetloc (scheme netloc url : Chars) : Chars :=
  if netloc ≠ [] ∨ (scheme ≠ [] ∧ scheme ∈ usesNetloc ∧ ¬ startsL ['/', '/'] url = true) then
    '/' :: '/' :: (netloc ++ addRoot url)
  else url

/-- The `if scheme: url = scheme + ':' + url` step of `urlunsplit`. -/
def addScheme (scheme url : Chars) : Chars :=
  if scheme ≠ [] then scheme ++ ':' :: url else url

/-- The `if query: url = url + '?' + query` step of `urlunsplit`. -/
def addQuery (url query : Chars) : Chars :=
  if query ≠ [] then url ++ '?' :: query else url

/-- The `if fragment: url = url + '#' + fragment` step of `urlunsplit`. -/
def addFragment (url fragment : Chars) : Chars :=
  if fragment ≠ [] then url ++ '#' :: fragment else url

/-- `urlunsplit` on the five components. -/
def pyUrlunsplit (scheme netloc url query fragment : Chars) : Chars :=
  addFragment (addQuery (addScheme scheme (addNetloc scheme netloc url)) query) fragment

/-- `urlunparse` on the six components: params are glued to the path with a
semicolon. -/
def pyUrlunparse (p : ParseResult) : Chars :=
  pyUrlunsplit p.scheme p.netloc
    (if p.params ≠ [] then p.path ++ ';' :: p.params else p.path)
    p.query p.fragment

/-- The segment-resolution loop of `urljoin` (`..` pops, `.` is skipped,
anything else is appended; popping an empty stack is ignored). -/
def resolveLoop : List Chars → List Chars → List Chars
  | acc, [] => acc
  | acc, seg :: rest =>
    if seg = ['.', '.'] then resolveLoop acc.dropLast rest
    else if seg = ['.'] then resolveLoop acc rest
    else resolveLoop (acc ++ [seg]) rest

/-- Helper for `segments[1:-1] = filter(None, segments[1:-1])`: drops empty
entries except the last. -/
def filterMidAux : List Chars → List Chars
  | [] => []
  | [x] => [x]
  | x :: xs => if x = [] then filterMidAux xs else x :: filterMidAux xs

/-- `segments[1:-1] = filter(None, segments[1:-1])`: drops empty entries
except the first and the last. -/
def filterMiddle : List Chars → List Chars
  | [] => []
  | [a] => [a]
  | a :: rest => a :: filterMidAux rest

/-- The base-path segment list of `urljoin` (`base_parts` with the
trailing non-directory segment deleted). -/
def basePartsOf (bpath : Chars) : List Chars :=
  if (splitCh '/' bpath).getLast? ≠ some [] then (splitCh '/' bpath).dropLast
  else splitCh '/' bpath

/-- The `segments` list of `urljoin`. -/
def segmentsOf (bpath rpath : Chars) : List Chars :=
  if startsL ['/'] rpath then splitCh '/' rpath
  else filterMiddle (basePartsOf bpath ++ splitCh '/' rpath)

/-- The `resolved_path` list of `urljoin` (with the trailing empty segment
appended when the last segment is `.` or `..`). -/
def resolvedOf (segments : List Chars) : List Chars :=
  if segments.getLast? = some ['.'] ∨ segments.getLast? = some ['.', '.'] then
    resolveLoop [] segments ++ [[]]
  else resolveLoop [] segments

/-- The merged-and-resolved path of `urljoin`
(`'/'.join(resolved_path) or '/'`). -/
def joinResolvePath (bpath rpath : Chars) : Chars :=
  if joinCh '/' (resolvedOf (segmentsOf bpath rpath)) = [] then ['/']
  else joinCh '/' (resolvedOf (segmentsOf bpath rpath))

/-- The `netloc = bnetloc` fallback of `urljoin` (only when the scheme
uses a netloc). -/
def pickNetloc (rscheme rnetloc bnetloc : Chars) : Chars :=
  if rscheme ∈ usesNetloc then bnetloc else rnetloc

/-- The `if not query: query = bquery` fallback of `urljoin`. -/
def queryFallback (rquery bquery : Chars) : Chars :=
  if rquery = [] then bquery else rquery

/-- The branches of `urljoin` after both URLs are parsed. -/
def pyUrljoinCore (b r : ParseResult) (url : Chars) : Chars :=
  if r.scheme ≠ b.scheme ∨ r.scheme ∉ usesRelative then url
  else if r.scheme ∈ usesNetloc ∧ r.netloc ≠ [] then pyUrlunparse r
  else if r.path = [] ∧ r.params = [] then
    pyUrlunparse ⟨r.scheme, pickNetloc r.scheme r.netloc b.netloc, b.path, b.params,
      queryFallback r.query b.query, r.fragment⟩
  else
    pyUrlunparse ⟨r.scheme, pickNetloc r.scheme r.netloc b.netloc,
      joinResolvePath b.path r.path, r.params, r.query, r.fragment⟩

/-- `urljoin(base, url)` from `urllib.parse`, translated branch by
branch. -/
def pyUrljoin (base url : Chars) : Chars :=
  if base = [] then url
  else if url = [] then base
  else pyUrljoinCore (pyUrlparse base []) (pyUrlparse url (pyUrlparse base []).scheme) url

/-! ### The manifest rewriter (step 4 of `download_stream_manifest`,
`galata_ai.py` lines 103-123). -/

/-- Processing of a single manifest line: strip; keep blank and comment
lines (as stripped); keep absolute lines (as stripped); resolve everything
else against the manifest URL with `urljoin`. -/
def processLine (base line : Chars) : Chars :=
  let stripped_line := pyStrip line
  if stripped_line ≠ [] ∧ ¬ startsL ['#'] stripped_line = true then
    if ¬ startsL ("http://".data) stripped_line = true ∧
        ¬ startsL ("https://".data) stripped_line = true then
      pyUrljoin base stripped_line
    else stripped_line
  else stripped_line

/-- The whole rewrite: split on newlines, process each line, rejoin with
newlines. -/
def rewriteL (content base : Chars) : Chars :=
  joinCh '\n' ((splitCh '\n' content).map (processLine base))

/-- String-level wrapper for the rewrite. -/
def rewriteStr (content base_url : String) : String :=
  ⟨rewriteL content.data base_url.data⟩

/-! ### The raise paths of `urlsplit`.  In CPython 3.11, `urlsplit` raises
`ValueError` at exactly three places, all between `_splitnetloc` and the
construction of the result: the bracket-mismatch check (`Invalid IPv6
URL`), `_check_bracketed_host` (when the netloc holds both `[` and `]`),
and `_checknetloc` (non-ASCII netlocs whose NFKC normalization smuggles in
a URL delimiter).  `urljoin` itself adds no raise of its own: it parses
the base, then the reference, and the remaining computation is total.
Inside the rewrite loop such a `ValueError` escapes
`download_stream_manifest`'s `try` body, so the job fails. -/

/-- A `ValueError` raised by `urlsplit`: which check fired, with its data.
The corresponding `str(e)` texts in the source are `Invalid IPv6 URL`,
`IPvFuture address is invalid`, `An IPv4 address cannot be in brackets`,
`{host!r} does not appear to be an IPv4 or IPv6 address` and
`netloc '{netloc}' contains invalid characters under NFKC normalization`
(the `repr` rendering of the host is not modelled; no theorem below
depends on a rendered message). -/
inductive UrlErr where
  | invalidIPv6
  | ipvFutureInvalid
  | ipv4InBrackets
  | notAnIP (host : Chars)
  | nfkcNetloc (netloc : Chars)
deriving DecidableEq

/-- Hex digit as accepted by `IPv6Address._parse_hextet`
(`_HEX_DIGITS = frozenset('0123456789ABCDEFabcdef')`). -/
def isHexDigitPy (c : Char) : Bool :=
  c.isDigit || ('a' ≤ c && c ≤ 'f') || ('A' ≤ c && c ≤ 'F')

/-- Numeric value of an ASCII-decimal string (used on strings already
checked to be short digit runs). -/
def decVal (s : Chars) : Nat :=
  s.foldl (fun a c => a * 10 + (c.toNat - 48)) 0

/-- `IPv4Address._parse_octet` accepts: nonempty, ASCII digits only, at
most 3 characters, no leading zero except `0` itself, value at most
255. -/
def octetOk (s : Chars) : Bool :=
  s ≠ [] && s.all Char.isDigit && decide (s.length ≤ 3) &&
  (s = ['0'] || s.head? ≠ some '0') && decide (decVal s ≤ 255)

/-- `IPv4Address(<string>)` accepts: no `/`, and `_ip_int_from_string`
succeeds — nonempty, exactly four `.`-separated parts, each a valid
octet. -/
def ipv4Ok (s : Chars) : Bool :=
  !(decide ('/' ∈ s)) && s ≠ [] && (splitCh '.' s).length = 4 &&
  (splitCh '.' s).all octetOk

/-- `IPv6Address._parse_hextet` accepts: hex digits only, at most 4 of
them, and nonempty (`int('', 16)` raises inside the guarded
conversion). -/
def hextetOk (s : Chars) : Bool :=
  s.all isHexDigitPy && decide (s.length ≤ 4) && s ≠ []

/-- The part-list analysis of `IPv6Address._ip_int_from_string` after the
minimum-parts check and the IPv4-suffix replacement: at most 9 parts; at
most one empty interior part (the `::`); an empty first or last part only
next to the `::`; at least one part skipped by the `::`; and every part
that gets parsed a valid hextet.  `parts_hi`/`parts_lo` mirror the
source's adjusted counts of parts parsed before and after the `::`. -/
def ipv6PartsOk (parts : List Chars) : Bool :=
  let n := parts.length
  if ¬ n ≤ 9 then false
  else
    let interior := (parts.drop 1).dropLast
    if 2 ≤ interior.countP (fun p => p = []) then false
    else
      match interior.findIdx? (fun p => p = []) with
      | some j =>
        let i := j + 1
        if parts.head? = some [] ∧ i ≠ 1 then false
        else if parts.getLast? = some [] ∧ n - i - 1 ≠ 1 then false
        else
          let hi := if parts.head? = some [] then i - 1 else i
          let lo := if parts.getLast? = some [] then n - i - 2 else n - i - 1
          if ¬ hi + lo ≤ 7 then false
          else (parts.take hi).all hextetOk && (parts.drop (n - lo)).all hextetOk
      | none =>
        n = 8 && parts.head? ≠ some [] && parts.getLast? ≠ some [] &&
          parts.all hextetOk

/-- `IPv6Address._ip_int_from_string` accepts the scope-free address text:
nonempty; at least three `:`-separated parts; an IPv4-style last part (one
containing `.`) must be a valid IPv4 literal and is replaced by two
hextets (modelled by two `0` placeholders — the real replacements are
always valid nonempty hextets, and only validity and nonemptiness of the
appended parts matter); then the part-list analysis. -/
def ipv6NoScopeOk (a : Chars) : Bool :=
  a ≠ [] &&
  (let parts := splitCh ':' a
   decide (3 ≤ parts.length) &&
   (match parts.getLast? with
    | some last =>
      if decide ('.' ∈ last) then
        ipv4Ok last && ipv6PartsOk (parts.dropLast ++ [['0'], ['0']])
      else ipv6PartsOk parts
    | none => false))

/-- `IPv6Address(<string>)` accepts: no `/`; if a `%` is present, the text
after the first `%` (the scope id, `_split_scope_id`) is nonempty and
`%`-free; and the text before it is a valid scope-free address. -/
def ipv6Ok (s : Chars) : Bool :=
  !(decide ('/' ∈ s)) &&
  (if decide ('%' ∈ s) then
    (splitFirst '%' s).2 ≠ [] && !(decide ('%' ∈ (splitFirst '%' s).2)) &&
      ipv6NoScopeOk (splitFirst '%' s).1
   else ipv6NoScopeOk s)

/-- `re.match(r"\Av[a-fA-F0-9]+\..+\Z", hostname)` succeeds: a `v`, a
nonempty hex run, a `.`, then at least one character with no newline among
them.  Since `.` is not a hex digit, the greedy hex run is forced to be
the maximal one, so no backtracking case remains. -/
def ipvFutureOk (host : Chars) : Bool :=
  match host with
  | 'v' :: rest =>
    let hexs := rest.takeWhile isHexDigitPy
    let after := rest.drop hexs.length
    hexs ≠ [] && after.head? = some '.' && after.drop 1 ≠ [] &&
      !(decide ('\n' ∈ after.drop 1))
  | _ => false

/-- `netloc.partition('[')[2].partition(']')[0]`: the text after the first
`[`, cut at the first `]` inside it if one occurs. -/
def bracketedHostOf (netloc : Chars) : Chars :=
  if decide ('[' ∈ netloc) then
    let after := (splitFirst '[' netloc).2
    if decide (']' ∈ after) then (splitFirst ']' after).1 else after
  else []

/-- `_check_bracketed_host(hostname)`: hostnames starting with `v` must
match the IPvFuture shape; otherwise `ipaddress.ip_address` must accept
(IPv4 is tried first, and a bracketed IPv4 address is itself an error). -/
def bracketedHostErr (host : Chars) : Option UrlErr :=
  if startsL ['v'] host then
    if ipvFutureOk host then none else some .ipvFutureInvalid
  else if ipv4Ok host then some .ipv4InBrackets
  else if ipv6Ok host then none
  else some (.notAnIP host)

/-- `str.isascii` on one character. -/
def isAsciiChar (c : Char) : Bool := decide (c.toNat ≤ 0x7F)

/-- The 19 code points whose NFKC normalization contains one of the
delimiters `/?#@:` (they are not those delimiters themselves): U+2047-2049
(double punctuation), U+2100/2101/2105/2106 (letterlike `a/c`, `a/s`,
`c/o`, `c/u`), U+2A74 (`::=`), U+FE13/FE16/FE55/FE56/FE5F/FE6B (small
forms), U+FF03/FF0F/FF1A/FF1F/FF20 (fullwidth forms).  The set is closed
under the normalization algebra: an ASCII delimiter appears in `NFKC(s)`
exactly when a character of `s` is that delimiter or carries it in its
full compatibility decomposition, because canonical composition never
produces or consumes these ASCII starters. -/
def nfkcExpandsDelim (c : Char) : Bool :=
  c.toNat = 0x2047 || c.toNat = 0x2048 || c.toNat = 0x2049 ||
  c.toNat = 0x2100 || c.toNat = 0x2101 || c.toNat = 0x2105 ||
  c.toNat = 0x2106 || c.toNat = 0x2A74 || c.toNat = 0xFE13 ||
  c.toNat = 0xFE16 || c.toNat = 0xFE55 || c.toNat = 0xFE56 ||
  c.toNat = 0xFE5F || c.toNat = 0xFE6B || c.toNat = 0xFF03 ||
  c.toNat = 0xFF0F || c.toNat = 0xFF1A || c.toNat = 0xFF1F ||
  c.toNat = 0xFF20

/-- `_checknetloc(netloc)`: empty or all-ASCII netlocs pass; otherwise the
netloc with `@:#?` removed is NFKC-normalized, and the check raises
exactly when the normalization contains one of `/?#@:` — by the closure
property above, exactly when the filtered netloc contains one of the 19
expanding characters (a netloc never contains `/`, and `@:#?` were
removed, so the delimiter can only come from an expansion, and an
expansion also forces `n != netloc2`). -/
def checknetlocErr (netloc : Chars) : Option UrlErr :=
  if netloc = [] || netloc.all isAsciiChar then none
  else
    let n := netloc.filter (fun c => !(c = '@' || c = ':' || c = '#' || c = '?'))
    if n.any nfkcExpandsDelim then some (.nfkcNetloc netloc) else none

/-- The `ValueError` `urlsplit(url, ·)` raises, if any, in source order:
the bracket-mismatch check, then `_check_bracketed_host` when both
brackets occur, then (after the raise-free fragment and query splits)
`_checknetloc`.  The netloc is computed by the same cleaning, scheme and
netloc steps as `pyUrlsplit`; the default-scheme argument does not
influence it.  Without a `//` prefix the netloc is empty and nothing
raises. -/
def urlsplitErr (url0 : Chars) : Option UrlErr :=
  let netloc := (netlocSplit (schemeSplit (cleanUrl url0) []).2).1
  if (decide ('[' ∈ netloc) && !(decide (']' ∈ netloc))) ||
      (decide (']' ∈ netloc) && !(decide ('[' ∈ netloc))) then
    some .invalidIPv6
  else if decide ('[' ∈ netloc) && decide (']' ∈ netloc) then
    match bracketedHostErr (bracketedHostOf netloc) with
    | some e => some e
    | none => checknetlocErr netloc
  else checknetlocErr netloc

/-- The `ValueError` `urljoin(base, url)` raises, if any: nothing when
either argument is empty (the source returns early); otherwise the base is
parsed first, then the reference (`urlparse` is `urlsplit` plus the
raise-free `_splitparams`), and the rest of `urljoin` raises nothing. -/
def urljoinErr (base url : Chars) : Option UrlErr :=
  if base = [] then none
  else if url = [] then none
  else
    match urlsplitErr base with
    | some e => some e
    | none => urlsplitErr url

/-- `urljoin` with its raise behaviour: the error, or the joined URL. -/
def pyUrljoinE (base url : Chars) : Except UrlErr Chars :=
  match urljoinErr base url with
  | some e => .error e
  | none => .ok (pyUrljoin base url)

/-- The `ValueError` the rewrite loop raises at one line, if any: only the
`urljoin` call on a non-blank, non-comment, non-absolute stripped line can
raise. -/
def processLineErr (base line : Chars) : Option UrlErr :=
  let stripped_line := pyStrip line
  if stripped_line ≠ [] ∧ ¬ startsL ['#'] stripped_line = true then
    if ¬ startsL ("http://".data) stripped_line = true ∧
        ¬ startsL ("https://".data) stripped_line = true then
      urljoinErr base stripped_line
    else none
  else none

/-- The first `ValueError` the rewrite loop raises over the manifest, if
any: lines are processed in order and the first raising line aborts the
loop. -/
def rewriteErr (content base : Chars) : Option UrlErr :=
  (splitCh '\n' content).findSome? (processLineErr base)

/-- The whole rewrite with its raise behaviour: the processed content, or
the `ValueError` the loop raises (which escapes to the job boundary in
`download_stream_manifest`). -/
def rewriteLE (content base : Chars) : Except UrlErr Chars :=
  match rewriteErr content base with
  | some e => .error e
  | none => .ok (rewriteL content base)

/-- String-level wrapper for the fallible rewrite. -/
def rewriteStrE (content base_url : String) : Except UrlErr String :=
  match rewriteLE content.data base_url.data with
  | .error e => .error e
  | .ok r => .ok ⟨r⟩

/-! ### The manifest locator (step 2 of `download_stream_manifest`,
`galata_ai.py` lines 66-87).  Each of the four regex patterns is embedded
as a deterministic matcher equivalent to `re.search` with `re.IGNORECASE`
on that pattern. -/

/-- The case fold `re.IGNORECASE` (Unicode, no `re.ASCII`) applies when
matching this program's pattern literals.  sre matches an input character
`c` against a lowercase literal `p` iff `getlower(c) = p` (simple Unicode
lowercase) or the pair is covered by sre's `_equivalences` fixes.  The
literals occurring in the four patterns are `s r c m u h t p 3 8 . : / = "
'`; the only non-ASCII characters whose simple lowercase is ASCII are
U+0130 (to `i`) and U+212A (to `k`), neither of which meets these
literals, and the only `_equivalences` group meeting them is
`s` - U+017F (LATIN SMALL LETTER LONG S); the groups `i`-U+0131 and all
Greek/Cyrillic groups touch no literal.  So on these patterns sre's fold
is exactly: ASCII lower-casing plus U+017F folding to `s`.  The character
classes `[^"]`, `[^']`, `[^\s<>"']` are unchanged by the flag since their
members are caseless. -/
def lowerRe (c : Char) : Char :=
  if c.toNat = 0x17F then 's' else lowerA c

/-- Case-insensitive `startswith` under the patterns' fold. -/
def startsCI : Chars → Chars → Bool
  | [], _ => true
  | _ :: _, [] => false
  | a :: as, b :: bs => decide (lowerRe a = lowerRe b) && startsCI as bs

/-- Case-insensitive substring occurrence under the patterns' fold. -/
def hasSeqCI (p l : Chars) : Bool := hasSeq (p.map lowerRe) (l.map lowerRe)

/-- The literal `.m3u8` looked for by every pattern. -/
def m3u8Pat : Chars := ".m3u8".data

/-- Pattern 1, `src="([^"]*\.m3u8[^"]*)"`, matched at the current
position: after `src="`, the longest quote-free run must contain `.m3u8`
(case-insensitively) and must be terminated by a closing quote; the
capture is that run. -/
def matchP1At (l : Chars) : Option Chars :=
  if startsCI ("src=".data ++ [quoteC]) l then
    let rest := l.drop 5
    let seg := rest.takeWhile (fun c => !(c = quoteC))
    if seg.length < rest.length ∧ hasSeqCI m3u8Pat seg = true then some seg else none
  else none

/-- Pattern 2, the single-quoted variant of pattern 1. -/
def matchP2At (l : Chars) : Option Chars :=
  if startsCI ("src=".data ++ [aposC]) l then
    let rest := l.drop 5
    let seg := rest.takeWhile (fun c => !(c = aposC))
    if seg.length < rest.length ∧ hasSeqCI m3u8Pat seg = true then some seg else none
  else none

/-- The `https?://` part of patterns 3 and 4 (returns the matched text and
the remainder). -/
def matchScheme (l : Chars) : Option (Chars × Chars) :=
  if startsCI ("https://".data) l then some (l.take 8, l.drop 8)
  else if startsCI ("http://".data) l then some (l.take 7, l.drop 7)
  else none

/-- Pattern 3, `"(https?://[^"]*\.m3u8[^"]*)"`. -/
def matchP3At (l : Chars) : Option Chars :=
  match l with
  | [] => none
  | c :: rest =>
    if c = quoteC then
      match matchScheme rest with
      | some (sch, rest2) =>
        let seg := rest2.takeWhile (fun c => !(c = quoteC))
        if seg.length < rest2.length ∧ hasSeqCI m3u8Pat seg = true then some (sch ++ seg)
        else none
      | none => none
    else none

/-- Delimiters of the bare-URL pattern 4 (`[^\s<>"']`). -/
def isBareDelim (c : Char) : Bool :=
  isPySpace c || c = '<' || c = '>' || c = quoteC || c = aposC

/-- Pattern 4, `(https?://[^\s<>"']*\.m3u8[^\s<>"']*)`. -/
def matchP4At (l : Chars) : Option Chars :=
  match matchScheme l with
  | some (sch, rest) =>
    let seg := rest.takeWhile (fun c => !isBareDelim c)
    if hasSeqCI m3u8Pat seg then some (sch ++ seg) else none
  | none => none

/-- `re.search`: try the matcher at every position, leftmost first. -/
def searchWith (m : Chars → Option Chars) : Chars → Option Chars
  | [] => m []
  | c :: rest =>
    match m (c :: rest) with
    | some r => some r
    | none => searchWith m rest

/-- The locator loop over the ordered pattern list (`for pattern in
m3u8_patterns: ... break`): first capturing match of the first pattern
that matches anywhere. -/
def locateL (html : Chars) : Option Chars :=
  match searchWith matchP1At html with
  | some u => some u
  | none =>
    match searchWith matchP2At html with
    | some u => some u
    | none =>
      match searchWith matchP3At html with
      | some u => some u
      | none => searchWith matchP4At html

/-- String-level wrapper for the locator. -/
def locateStr (html : String) : Option String :=
  (locateL html.data).map fun l => ⟨l⟩

/-! ### The job runner (`download_stream_manifest`) and the batch loop
(`process_all_streams`).  HTTP requests and filesystem calls are modelled
by an environment of `Except`-valued oracles (a `.error` models the call
raising an exception, whose `str(e)` is the carried string; request
headers and timeouts do not influence the modelled behaviour and are
dropped).  The runner also returns the log of performed side effects:
directory-creation calls and fetches are logged when issued, a `write`
effect is logged when the write completes.  The runner below applies
`rewriteStr`, the rewrite on its raise-free domain; a manifest on which
the rewrite raises (`rewriteErr` fires) would end the job through the
`except` clause like any other raising step, so the theorems about the
runner either condition on outcomes the raise-free path produces or
concern steps before the rewrite. -/

/-- Result of one HTTP GET (`response.status_code`, `response.text`). -/
structure FetchResult where
  status_code : Nat
  text : String
deriving DecidableEq

/-- The effect oracles: `os.makedirs`, `scraper.get`, and writing a file
(`open(..., "w").write`). -/
structure Env where
  makedirs : String → Except String Unit
  fetch : String → Except String FetchResult
  write : String → String → Except String Unit

/-- A performed side effect. -/
inductive Effect where
  | mkdir (path : String)
  | fetch (url : String)
  | write (path : String) (content : String)
deriving DecidableEq

/-- The result dictionary of `download_stream_manifest`: the success
dictionary carries `file_path` and `m3u8_url`; failure dictionaries carry
`file_path = None` and no `m3u8_url` key (modelled as `none`). -/
structure Outcome where
  success : Bool
  message : String
  file_path : Option String
  m3u8_url : Option String
deriving DecidableEq

/-- `os.path.join` (POSIX) on two components. -/
def posixJoin (a b : String) : String :=
  if startsL ['/'] b.data then b
  else if a.data = [] ∨ a.data.getLast? = some '/' then ⟨a.data ++ b.data⟩
  else ⟨a.data ++ '/' :: b.data⟩

/-- The job's folder path, `os.path.join(country, str(subdivision),
folder_name)` (the subdivision is modelled as the string `str` produces
for it). -/
def folder_path_of (country subdivision folder_name : String) : String :=
  posixJoin (posixJoin country subdivision) folder_name

/-- The embed-page URL: the fixed embed endpoint followed by the stream
id. -/
def embed_url_of (stream_id : String) : String :=
  "https://embed.galata.ai/embed/" ++ stream_id

/-- The output file path: `os.path.join` of the folder path and the stream
id with the `.m3u8` extension. -/
def output_file_of (country subdivision folder_name stream_id : String) : String :=
  posixJoin (folder_path_of country subdivision folder_name) (stream_id ++ ".m3u8")

/-- The failure outcome produced by the `except` clause at the job
boundary. -/
def errOutcome (e : String) : Outcome :=
  ⟨false, "Error: " ++ e, none, none⟩

/-- `download_stream_manifest(stream_id, referer, country, subdivision,
folder_name)`: create the folder, fetch the embed page, locate the
manifest URL, fetch the manifest, rewrite it, write the output file.
`referer` only feeds request headers and does not influence the modelled
behaviour. -/
def download_stream_manifest (env : Env)
    (stream_id referer country subdivision folder_name : String) :
    Outcome × List Effect :=
  let folder_path := folder_path_of country subdivision folder_name
  let log0 := [Effect.mkdir folder_path]
  match env.makedirs folder_path with
  | .error e => (errOutcome e, log0)
  | .ok _ =>
    let embed_url := embed_url_of stream_id
    let log1 := log0 ++ [Effect.fetch embed_url]
    match env.fetch embed_url with
    | .error e => (errOutcome e, log1)
    | .ok response =>
      if response.status_code ≠ 200 then
        ({ success := false,
           message := "Failed to fetch embed page. HTTP Status: " ++
             toString response.status_code,
           file_path := none, m3u8_url := none }, log1)
      else
        match locateStr response.text with
        | none =>
          ({ success := false, message := "M3U8 URL not found in embed page",
             file_path := none, m3u8_url := none }, log1)
        | some m3u8_url =>
          let log2 := log1 ++ [Effect.fetch m3u8_url]
          match env.fetch m3u8_url with
          | .error e => (errOutcome e, log2)
          | .ok m3u8_response =>
            if m3u8_response.status_code ≠ 200 then
              ({ success := false,
                 message := "Failed to fetch M3U8 file. HTTP Status: " ++
                   toString m3u8_response.status_code,
                 file_path := none, m3u8_url := none }, log2)
            else
              let processed_content := rewriteStr m3u8_response.text m3u8_url
              let output_file := output_file_of country subdivision folder_name stream_id
              match env.write output_file processed_content with
              | .error e => (errOutcome e, log2)
              | .ok _ =>
                ({ success := true,
                   message := "M3U8 file successfully downloaded and processed",
                   file_path := some output_file, m3u8_url := some m3u8_url },
                  log2 ++ [Effect.write output_file processed_content])

/-- One parsed entry of the JSON config (field names as in the file). -/
structure StreamRec where
  country : String
  subdivision : String
  folder_name : String
  stream_id : String
  name : String
  referer : String
deriving DecidableEq

/-- Batch-level event: one job attempt, or the inter-job sleep. -/
inductive BatchEv where
  | attempt (stream_id : String)
  | sleep (secs : Nat)
deriving DecidableEq

/-- One entry of the `failed_streams` list. -/
structure FailureRec where
  name : String
  location : String
  stream_id : String
  error : String
deriving DecidableEq

/-- The summary dictionary returned by `process_all_streams`. -/
structure BatchSummary where
  total : Nat
  successful : Nat
  failed : Nat
  failed_streams : List FailureRec
deriving DecidableEq

/-- The body of the `for idx, stream in enumerate(streams, 1)` loop:
returns (successful, failed, failed_streams, events); `n` is
`len(streams)` and `idx` the 1-based position, so the sleep happens after
each job with `idx < n`. -/
def batchGo (env : Env) (delay n : Nat) :
    Nat → List StreamRec → Nat × Nat × List FailureRec × List BatchEv
  | _, [] => (0, 0, [], [])
  | idx, s :: rest =>
    let result := (download_stream_manifest env s.stream_id s.referer
      s.country s.subdivision s.folder_name).1
    let tail := batchGo env delay n (idx + 1) rest
    let evs := BatchEv.attempt s.stream_id ::
      ((if idx < n then [BatchEv.sleep delay] else []) ++ tail.2.2.2)
    if result.success then
      (tail.1 + 1, tail.2.1, tail.2.2.1, evs)
    else
      (tail.1, tail.2.1 + 1,
        { name := s.name,
          location := s.country ++ "/" ++ s.subdivision ++ "/" ++ s.folder_name,
          stream_id := s.stream_id, error := result.message } :: tail.2.2.1,
        evs)

/-- `process_all_streams` on an already-parsed list of stream records (the
JSON config loading of the source is file-I/O glue outside this model;
a missing or unparsable config aborts before this loop is reached). -/
def process_all_streams (env : Env) (streams : List StreamRec) (delay : Nat) :
    BatchSummary × List BatchEv :=
  let r := batchGo env delay streams.length 1 streams
  (⟨streams.length, r.1, r.2.1, r.2.2.1⟩, r.2.2.2)

/-! ### Character-membership lemmas for the URL machinery -/

theorem mem_of_mem_takeWhile {p : Char → Bool} {c : Char} :
    ∀ {l : Chars}, c ∈ l.takeWhile p → c ∈ l := by
  intro l h
  induction l with
  | nil => simpa [List.takeWhile] using h
  | cons a as ih =>
    rw [List.takeWhile_cons] at h
    by_cases hp : p a
    · simp only [hp, if_true] at h
      rcases List.mem_cons.1 h with rfl | hmem
      · exact List.mem_cons_self _ _
      · exact List.mem_cons_of_mem _ (ih hmem)
    · simp only [hp, if_false] at h
      simp at h

theorem takeWhile_length_le (p : Char → Bool) :
    ∀ l : Chars, (l.takeWhile p).length ≤ l.length := by
  intro l
  induction l with
  | nil => simp
  | cons a as ih =>
    rw [List.takeWhile_cons]
    split
    · simp only [List.length_cons]
      omega
    · simp

theorem mem_of_mem_dropLast {α : Type} {x : α} :
    ∀ {l : List α}, x ∈ l.dropLast → x ∈ l := fun h =>
  List.dropLast_subset _ h

theorem mem_cleanUrl {c : Char} {l : Chars} (h : c ∈ cleanUrl l) : c ∈ l := by
  unfold cleanUrl at h
  exact mem_of_mem_dropWhile (List.mem_of_mem_filter h)

theorem cleanUrl_not_unsafe {c : Char} {l : Chars} (h : c ∈ cleanUrl l) :
    isUnsafeByte c = false := by
  unfold cleanUrl at h
  have := List.of_mem_filter h
  simpa using this

theorem mem_cleanScheme {c : Char} {l : Chars} (h : c ∈ cleanScheme l) : c ∈ l := by
  unfold cleanScheme at h
  have h1 := List.mem_of_mem_filter h
  rw [List.mem_reverse] at h1
  have h2 := mem_of_mem_dropWhile h1
  rw [List.mem_reverse] at h2
  exact mem_of_mem_dropWhile h2

theorem cleanScheme_nil : cleanScheme [] = [] := rfl

theorem unsafe_is_space {c : Char} (h : isUnsafeByte c = true) : isPySpace c = true := by
  unfold isUnsafeByte at h
  simp only [Bool.or_eq_true, decide_eq_true_eq] at h
  rcases h with (rfl | rfl) | rfl <;> decide

theorem cleanUrl_eq_self_of_ok {l : Chars} (h : okStringB l = true) : cleanUrl l = l := by
  have hall := List.all_eq_true.1 h
  unfold cleanUrl
  have hdrop : l.dropWhile isC0OrSpace = l := by
    cases l with
    | nil => rfl
    | cons a as =>
      have ha := hall a (List.mem_cons_self _ _)
      unfold okCharB at ha
      rw [Bool.and_eq_true] at ha
      have : isC0OrSpace a = false := by
        unfold isC0OrSpace
        simp only [decide_eq_true_eq] at ha ⊢
        simp only [decide_eq_false_iff_not]
        omega
      rw [List.dropWhile_cons, this]
      simp
  rw [hdrop]
  apply List.filter_eq_self.2
  intro c hc
  have hok := hall c hc
  unfold okCharB at hok
  rw [Bool.and_eq_true] at hok
  have hsp : isPySpace c = false := by simpa using hok.2
  cases hu : isUnsafeByte c
  · simp
  · exact absurd (unsafe_is_space hu) (by simp [hsp])

theorem scanScheme_mem :
    ∀ {l tok rest : Chars}, scanScheme l = some (tok, rest) →
      (∀ c ∈ tok, c ∈ l) ∧ (∀ c ∈ rest, c ∈ l) := by
  intro l
  induction l with
  | nil => intro tok rest h; simp [scanScheme] at h
  | cons a as ih =>
    intro tok rest h
    simp only [scanScheme] at h
    by_cases ha : a = ':'
    · simp only [ha, if_true, Option.some.injEq, Prod.mk.injEq] at h
      obtain ⟨rfl, rfl⟩ := h
      exact ⟨by simp, fun c hc => List.mem_cons_of_mem _ hc⟩
    · simp only [ha, if_false] at h
      cases hsc : scanScheme as with
      | none => rw [hsc] at h; simp at h
      | some pr =>
        rw [hsc] at h
        have h2 : (a :: pr.1, pr.2) = (tok, rest) := Option.some.inj h
        rw [Prod.mk.injEq] at h2
        obtain ⟨h3, h4⟩ := h2
        subst h3
        subst h4
        obtain ⟨h1, h2⟩ := ih (show scanScheme as = some (pr.1, pr.2) by rw [hsc])
        constructor
        · intro c hc
          rcases List.mem_cons.1 hc with rfl | hmem
          · exact List.mem_cons_self _ _
          · exact List.mem_cons_of_mem _ (h1 c hmem)
        · intro c hc
          exact List.mem_cons_of_mem _ (h2 c hc)

theorem splitFirst_mem (d : Char) :
    ∀ {l : Chars}, (∀ c ∈ (splitFirst d l).1, c ∈ l) ∧ (∀ c ∈ (splitFirst d l).2, c ∈ l) := by
  intro l
  induction l with
  | nil => simp [splitFirst]
  | cons a as ih =>
    simp only [splitFirst]
    by_cases ha : a = d
    · simp only [ha, if_true]
      exact ⟨by simp, fun c hc => List.mem_cons_of_mem _ hc⟩
    · simp only [ha, if_false]
      refine ⟨fun c hc => ?_, fun c hc => List.mem_cons_of_mem _ (ih.2 c hc)⟩
      rcases List.mem_cons.1 hc with rfl | hmem
      · exact List.mem_cons_self _ _
      · exact List.mem_cons_of_mem _ (ih.1 c hmem)

theorem splitParams_mem :
    ∀ {l : Chars}, (∀ c ∈ (splitParams l).1, c ∈ l) ∧ (∀ c ∈ (splitParams l).2, c ∈ l) := by
  intro l
  unfold splitParams
  by_cases hs : '/' ∈ l
  · simp only [hs, if_true]
    set lastSeg := (l.reverse.takeWhile (fun c => !(c = '/'))).reverse with hseg
    have hsegmem : ∀ c ∈ lastSeg, c ∈ l := by
      intro c hc
      rw [hseg, List.mem_reverse] at hc
      have := mem_of_mem_takeWhile hc
      rwa [List.mem_reverse] at this
    by_cases hsemi : ';' ∈ lastSeg
    · simp only [hsemi, if_true]
      constructor
      · intro c hc
        rcases List.mem_append.1 hc with hmem | hmem
        · exact List.mem_of_mem_take hmem
        · exact hsegmem c ((splitFirst_mem ';').1 c hmem)
      · intro c hc
        exact hsegmem c ((splitFirst_mem ';').2 c hc)
    · simp only [hsemi, if_false]
      exact ⟨fun c hc => hc, by simp⟩
  · simp only [hs, if_false]
    exact ⟨fun c hc => (splitFirst_mem ';').1 c hc, fun c hc => (splitFirst_mem ';').2 c hc⟩

theorem filterMidAux_mem : ∀ {l : List Chars} {p : Chars}, p ∈ filterMidAux l → p ∈ l := by
  intro l
  induction l with
  | nil => intro p h; simpa [filterMidAux] using h
  | cons x xs ih =>
    intro p h
    cases xs with
    | nil => simpa [filterMidAux] using h
    | cons y ys =>
      simp only [filterMidAux] at h
      by_cases hx : x = ([] : Chars)
      · simp only [hx, if_true] at h
        exact List.mem_cons_of_mem _ (ih (by simpa [hx] using h))
      · simp only [hx, if_false] at h
        rcases List.mem_cons.1 h with rfl | hmem
        · exact List.mem_cons_self _ _
        · exact List.mem_cons_of_mem _ (ih hmem)

theorem filterMiddle_mem {l : List Chars} {p : Chars} (h : p ∈ filterMiddle l) : p ∈ l := by
  cases l with
  | nil => simpa [filterMiddle] using h
  | cons a rest =>
    cases rest with
    | nil => simpa [filterMiddle] using h
    | cons b bs =>
      simp only [filterMiddle] at h
      rcases List.mem_cons.1 h with rfl | hmem
      · exact List.mem_cons_self _ _
      · exact List.mem_cons_of_mem _ (filterMidAux_mem hmem)

theorem resolveLoop_mem :
    ∀ {segs acc : List Chars} {p : Chars}, p ∈ resolveLoop acc segs → p ∈ acc ∨ p ∈ segs := by
  intro segs
  induction segs with
  | nil => intro acc p h; exact Or.inl (by simpa [resolveLoop] using h)
  | cons seg rest ih =>
    intro acc p h
    simp only [resolveLoop] at h
    by_cases h2 : seg = ['.', '.']
    · simp only [h2, if_true] at h
      rcases ih h with hmem | hmem
      · exact Or.inl (mem_of_mem_dropLast hmem)
      · exact Or.inr (List.mem_cons_of_mem _ hmem)
    · simp only [h2, if_false] at h
      by_cases h1 : seg = ['.']
      · simp only [h1, if_true] at h
        rcases ih h with hmem | hmem
        · exact Or.inl hmem
        · exact Or.inr (List.mem_cons_of_mem _ hmem)
      · simp only [h1, if_false] at h
        rcases ih h with hmem | hmem
        · rcases List.mem_append.1 hmem with hm | hm
          · exact Or.inl hm
          · exact Or.inr (by simp only [List.mem_singleton] at hm; simp [hm])
        · exact Or.inr (List.mem_cons_of_mem _ hmem)

/-! ### Predicate closure through the URL machinery: if every character of
the inputs satisfies a predicate that also holds for the structural
characters introduced by recomposition and is closed under lower-casing,
then so does every character of `urljoin`'s output. -/

theorem okChar_lowerA {c : Char} (h : okCharB c = true) : okCharB (lowerA c) = true := by
  unfold lowerA
  split <;> first | decide | exact h

theorem lowerA_ne_nl {c : Char} (h : ¬ c = '\n') : ¬ lowerA c = '\n' := by
  unfold lowerA
  split <;> first | decide | exact h

theorem schemeSplit_mem {Q : Char → Prop} (hlow : ∀ c, Q c → Q (lowerA c))
    {url dflt : Chars} (hu : ∀ c ∈ url, Q c) (hd : ∀ c ∈ dflt, Q c) :
    (∀ c ∈ (schemeSplit url dflt).1, Q c) ∧ (∀ c ∈ (schemeSplit url dflt).2, Q c) := by
  unfold schemeSplit
  cases hsc : scanScheme url with
  | none => exact ⟨hd, hu⟩
  | some pr =>
    obtain ⟨htok, hrest⟩ := scanScheme_mem (show scanScheme url = some (pr.1, pr.2) by rw [hsc])
    by_cases hv : schemeTokValid pr.1
    · simp only [hv, if_true]
      refine ⟨fun c hc => ?_, fun c hc => hu c (hrest c hc)⟩
      obtain ⟨c0, hc0, rfl⟩ := List.mem_map.1 hc
      exact hlow c0 (hu c0 (htok c0 hc0))
    · simp only [hv, if_false]
      exact ⟨hd, hu⟩

theorem netlocSplit_mem {Q : Char → Prop} {url : Chars} (hu : ∀ c ∈ url, Q c) :
    (∀ c ∈ (netlocSplit url).1, Q c) ∧ (∀ c ∈ (netlocSplit url).2, Q c) := by
  unfold netlocSplit
  by_cases hs : startsL ['/', '/'] url = true
  · simp only [hs, if_true]
    unfold splitNetlocAt2
    constructor
    · intro c hc
      exact hu c (List.drop_subset _ _ (mem_of_mem_takeWhile hc))
    · intro c hc
      exact hu c (List.drop_subset _ _ (List.drop_subset _ _ hc))
  · simp only [hs, if_false]
    exact ⟨by simp, hu⟩

theorem pyUrlsplit_mem {Q : Char → Prop} (hlow : ∀ c, Q c → Q (lowerA c))
    {u d : Chars} (hu : ∀ c ∈ cleanUrl u, Q c) (hd : ∀ c ∈ cleanScheme d, Q c) :
    (∀ c ∈ (pyUrlsplit u d).scheme, Q c) ∧ (∀ c ∈ (pyUrlsplit u d).netloc, Q c) ∧
    (∀ c ∈ (pyUrlsplit u d).path, Q c) ∧ (∀ c ∈ (pyUrlsplit u d).query, Q c) ∧
    (∀ c ∈ (pyUrlsplit u d).fragment, Q c) := by
  obtain ⟨h1, h2⟩ := schemeSplit_mem hlow hu hd
  obtain ⟨h3, h4⟩ := netlocSplit_mem h2
  have h5 : ∀ c ∈ (splitFirst '#' (netlocSplit (schemeSplit (cleanUrl u) (cleanScheme d)).2).2).1, Q c :=
    fun c hc => h4 c ((splitFirst_mem '#').1 c hc)
  have h6 : ∀ c ∈ (splitFirst '#' (netlocSplit (schemeSplit (cleanUrl u) (cleanScheme d)).2).2).2, Q c :=
    fun c hc => h4 c ((splitFirst_mem '#').2 c hc)
  exact ⟨h1, h3, fun c hc => h5 c ((splitFirst_mem '?').1 c hc),
    fun c hc => h5 c ((splitFirst_mem '?').2 c hc), h6⟩

theorem pyUrlparse_mem {Q : Char → Prop} (hlow : ∀ c, Q c → Q (lowerA c))
    {u d : Chars} (hu : ∀ c ∈ cleanUrl u, Q c) (hd : ∀ c ∈ cleanScheme d, Q c) :
    (∀ c ∈ (pyUrlparse u d).scheme, Q c) ∧ (∀ c ∈ (pyUrlparse u d).netloc, Q c) ∧
    (∀ c ∈ (pyUrlparse u d).path, Q c) ∧ (∀ c ∈ (pyUrlparse u d).params, Q c) ∧
    (∀ c ∈ (pyUrlparse u d).query, Q c) ∧ (∀ c ∈ (pyUrlparse u d).fragment, Q c) := by
  obtain ⟨h1, h2, h3, h4, h5⟩ := pyUrlsplit_mem hlow hu hd
  unfold pyUrlparse
  by_cases hc : (pyUrlsplit u d).scheme ∈ usesParams ∧ ';' ∈ (pyUrlsplit u d).path
  · simp only [hc, if_true]
    exact ⟨h1, h2, fun c hcc => h3 c (splitParams_mem.1 c hcc),
      fun c hcc => h3 c (splitParams_mem.2 c hcc), h4, h5⟩
  · simp only [hc, if_false]
    exact ⟨h1, h2, h3, by simp, h4, h5⟩

theorem addRoot_mem {Q : Char → Prop} (hsl : Q '/') {url : Chars}
    (hu : ∀ c ∈ url, Q c) : ∀ c ∈ addRoot url, Q c := by
  unfold addRoot
  split
  · intro c hc
    rcases List.mem_cons.1 hc with rfl | hmem
    · exact hsl
    · exact hu c hmem
  · exact hu

theorem addNetloc_mem {Q : Char → Prop} (hsl : Q '/') {scheme netloc url : Chars}
    (hn : ∀ c ∈ netloc, Q c) (hu : ∀ c ∈ url, Q c) :
    ∀ c ∈ addNetloc scheme netloc url, Q c := by
  unfold addNetloc
  split
  · intro c hc
    rcases List.mem_cons.1 hc with rfl | hc
    · exact hsl
    rcases List.mem_cons.1 hc with rfl | hc
    · exact hsl
    rcases List.mem_append.1 hc with hm | hm
    · exact hn c hm
    · exact addRoot_mem hsl hu c hm
  · exact hu

theorem addScheme_mem {Q : Char → Prop} (hco : Q ':') {scheme url : Chars}
    (hs : ∀ c ∈ scheme, Q c) (hu : ∀ c ∈ url, Q c) : ∀ c ∈ addScheme scheme url, Q c := by
  unfold addScheme
  split
  · intro c hc
    rcases List.mem_append.1 hc with hm | hm
    · exact hs c hm
    rcases List.mem_cons.1 hm with rfl | hm
    · exact hco
    · exact hu c hm
  · exact hu

theorem addQuery_mem {Q : Char → Prop} (hqu : Q '?') {url query : Chars}
    (hu : ∀ c ∈ url, Q c) (hq : ∀ c ∈ query, Q c) : ∀ c ∈ addQuery url query, Q c := by
  unfold addQuery
  split
  · intro c hc
    rcases List.mem_append.1 hc with hm | hm
    · exact hu c hm
    rcases List.mem_cons.1 hm with rfl | hm
    · exact hqu
    · exact hq c hm
  · exact hu

theorem addFragment_mem {Q : Char → Prop} (hha : Q '#') {url fragment : Chars}
    (hu : ∀ c ∈ url, Q c) (hf : ∀ c ∈ fragment, Q c) : ∀ c ∈ addFragment url fragment, Q c := by
  unfold addFragment
  split
  · intro c hc
    rcases List.mem_append.1 hc with hm | hm
    · exact hu c hm
    rcases List.mem_cons.1 hm with rfl | hm
    · exact hha
    · exact hf c hm
  · exact hu

theorem pyUrlunsplit_mem {Q : Char → Prop}
    (hsl : Q '/') (hco : Q ':') (hqu : Q '?') (hha : Q '#')
    {scheme netloc url query fragment : Chars}
    (hs : ∀ c ∈ scheme, Q c) (hn : ∀ c ∈ netloc, Q c) (hu : ∀ c ∈ url, Q c)
    (hq : ∀ c ∈ query, Q c) (hf : ∀ c ∈ fragment, Q c) :
    ∀ c ∈ pyUrlunsplit scheme netloc url query fragment, Q c :=
  addFragment_mem hha (addQuery_mem hqu (addScheme_mem hco hs (addNetloc_mem hsl hn hu)) hq) hf

theorem pyUrlunparse_mem {Q : Char → Prop}
    (hsl : Q '/') (hco : Q ':') (hqu : Q '?') (hha : Q '#') (hse : Q ';')
    {p : ParseResult}
    (hs : ∀ c ∈ p.scheme, Q c) (hn : ∀ c ∈ p.netloc, Q c) (hp : ∀ c ∈ p.path, Q c)
    (hpar : ∀ c ∈ p.params, Q c) (hq : ∀ c ∈ p.query, Q c) (hf : ∀ c ∈ p.fragment, Q c) :
    ∀ c ∈ pyUrlunparse p, Q c := by
  unfold pyUrlunparse
  refine pyUrlunsplit_mem hsl hco hqu hha hs hn ?_ hq hf
  split
  · intro c hc
    rcases List.mem_append.1 hc with hm | hm
    · exact hp c hm
    rcases List.mem_cons.1 hm with rfl | hm
    · exact hse
    · exact hpar c hm
  · exact hp

theorem basePartsOf_mem {bpath : Chars} {p : Chars} (h : p ∈ basePartsOf bpath) :
    p ∈ splitCh '/' bpath := by
  unfold basePartsOf at h
  revert h
  split
  · exact fun h => mem_of_mem_dropLast h
  · exact fun h => h

theorem segmentsOf_mem {bpath rpath : Chars} {p : Chars} (h : p ∈ segmentsOf bpath rpath) :
    ∀ c ∈ p, c ∈ bpath ∨ c ∈ rpath := by
  unfold segmentsOf at h
  revert h
  split
  · intro h c hc
    exact Or.inr (mem_of_mem_splitCh '/' h hc)
  · intro h c hc
    rcases List.mem_append.1 (filterMiddle_mem h) with hm | hm
    · exact Or.inl (mem_of_mem_splitCh '/' (basePartsOf_mem hm) hc)
    · exact Or.inr (mem_of_mem_splitCh '/' hm hc)

theorem resolvedOf_mem {segs : List Chars} {p : Chars} (h : p ∈ resolvedOf segs) :
    p ∈ segs ∨ p = [] := by
  unfold resolvedOf at h
  revert h
  split
  · intro h
    rcases List.mem_append.1 h with hm | hm
    · rcases resolveLoop_mem hm with hm2 | hm2
      · simp at hm2
      · exact Or.inl hm2
    · simp only [List.mem_singleton] at hm
      exact Or.inr hm
  · intro h
    rcases resolveLoop_mem h with hm2 | hm2
    · simp at hm2
    · exact Or.inl hm2

theorem joinResolvePath_mem {Q : Char → Prop} (hsl : Q '/') {bpath rpath : Chars}
    (hb : ∀ c ∈ bpath, Q c) (hr : ∀ c ∈ rpath, Q c) :
    ∀ c ∈ joinResolvePath bpath rpath, Q c := by
  unfold joinResolvePath
  split
  · intro c hc
    simp only [List.mem_singleton] at hc
    subst hc
    exact hsl
  · intro c hc
    rcases mem_joinCh '/' hc with rfl | ⟨p, hp, hcp⟩
    · exact hsl
    rcases resolvedOf_mem hp with hm | rfl
    · rcases segmentsOf_mem hm c hcp with h2 | h2
      · exact hb c h2
      · exact hr c h2
    · simp at hcp

theorem pyUrljoinCore_mem {Q : Char → Prop}
    (hsl : Q '/') (hco : Q ':') (hqu : Q '?') (hha : Q '#') (hse : Q ';')
    {b r : ParseResult} {url : Chars}
    (hb2 : ∀ c ∈ b.netloc, Q c) (hb3 : ∀ c ∈ b.path, Q c) (hb4 : ∀ c ∈ b.params, Q c)
    (hb5 : ∀ c ∈ b.query, Q c)
    (hr1 : ∀ c ∈ r.scheme, Q c) (hr2 : ∀ c ∈ r.netloc, Q c) (hr3 : ∀ c ∈ r.path, Q c)
    (hr4 : ∀ c ∈ r.params, Q c) (hr5 : ∀ c ∈ r.query, Q c) (hr6 : ∀ c ∈ r.fragment, Q c)
    (hurl : ∀ c ∈ url, Q c) :
    ∀ c ∈ pyUrljoinCore b r url, Q c := by
  unfold pyUrljoinCore
  have hnet : ∀ c ∈ pickNetloc r.scheme r.netloc b.netloc, Q c := by
    unfold pickNetloc
    split
    · exact hb2
    · exact hr2
  split
  · exact hurl
  split
  · exact pyUrlunparse_mem hsl hco hqu hha hse hr1 hr2 hr3 hr4 hr5 hr6
  split
  · refine pyUrlunparse_mem hsl hco hqu hha hse hr1 hnet hb3 hb4 ?_ hr6
    unfold queryFallback
    split
    · exact hb5
    · exact hr5
  · exact pyUrlunparse_mem hsl hco hqu hha hse hr1 hnet
      (joinResolvePath_mem hsl hb3 hr3) hr4 hr5 hr6

theorem pyUrljoin_mem {Q : Char → Prop} (hlow : ∀ c, Q c → Q (lowerA c))
    (hsl : Q '/') (hco : Q ':') (hqu : Q '?') (hha : Q '#') (hse : Q ';')
    {base url : Chars} (hbase : ∀ c ∈ cleanUrl base, Q c) (hurl : ∀ c ∈ url, Q c)
    (hne : url ≠ []) :
    ∀ c ∈ pyUrljoin base url, Q c := by
  unfold pyUrljoin
  by_cases hb : base = []
  · simp only [hb, if_true]
    exact hurl
  simp only [hb, hne, if_false]
  obtain ⟨hb1, hb2, hb3, hb4, hb5, hb6⟩ :=
    pyUrlparse_mem hlow (u := base) (d := []) hbase (by rw [cleanScheme_nil]; simp)
  have hclean : ∀ c ∈ cleanUrl url, Q c := fun c hc => hurl c (mem_cleanUrl hc)
  have hcleand : ∀ c ∈ cleanScheme (pyUrlparse base []).scheme, Q c :=
    fun c hc => hb1 c (mem_cleanScheme hc)
  obtain ⟨hr1, hr2, hr3, hr4, hr5, hr6⟩ :=
    pyUrlparse_mem hlow (u := url) (d := (pyUrlparse base []).scheme) hclean hcleand
  exact pyUrljoinCore_mem hsl hco hqu hha hse hb2 hb3 hb4 hb5 hr1 hr2 hr3 hr4 hr5 hr6 hurl

/-! ### Shape of `urljoin`'s output: for an absolute http/https base, the
output either keeps the reference verbatim (when its scheme differs) or
starts with `scheme://`. -/

theorem shape_append {sch x extra : Chars}
    (h : ∃ t, x = sch ++ ':' :: '/' :: '/' :: t) :
    ∃ t, x ++ extra = sch ++ ':' :: '/' :: '/' :: t := by
  obtain ⟨t, rfl⟩ := h
  exact ⟨t ++ extra, by simp⟩

theorem addQuery_shape {sch x q : Chars} (h : ∃ t, x = sch ++ ':' :: '/' :: '/' :: t) :
    ∃ t, addQuery x q = sch ++ ':' :: '/' :: '/' :: t := by
  unfold addQuery
  split
  · exact shape_append h
  · exact h

theorem addFragment_shape {sch x f : Chars} (h : ∃ t, x = sch ++ ':' :: '/' :: '/' :: t) :
    ∃ t, addFragment x f = sch ++ ':' :: '/' :: '/' :: t := by
  unfold addFragment
  split
  · exact shape_append h
  · exact h

theorem pyUrlunsplit_abs {sch n u q f : Chars} (hsch : sch ≠ [])
    (hmem : sch ∈ usesNetloc) :
    ∃ t, pyUrlunsplit sch n u q f = sch ++ ':' :: '/' :: '/' :: t := by
  unfold pyUrlunsplit
  apply addFragment_shape
  apply addQuery_shape
  unfold addScheme
  rw [if_pos hsch]
  unfold addNetloc
  by_cases hcond : n ≠ [] ∨ (sch ≠ [] ∧ sch ∈ usesNetloc ∧ ¬ startsL ['/', '/'] u = true)
  · rw [if_pos hcond]
    exact ⟨n ++ addRoot u, rfl⟩
  · rw [if_neg hcond]
    have hstart : startsL ['/', '/'] u = true := by
      by_contra hh
      exact hcond (Or.inr ⟨hsch, hmem, hh⟩)
    obtain ⟨t, rfl⟩ := (startsL_iff _ u).1 hstart
    exact ⟨t, rfl⟩

theorem pyUrljoinCore_abs {b r : ParseResult} {url : Chars}
    (hb : b.scheme = "http".data ∨ b.scheme = "https".data) :
    (∃ t, pyUrljoinCore b r url = b.scheme ++ ':' :: '/' :: '/' :: t) ∨
      pyUrljoinCore b r url = url := by
  unfold pyUrljoinCore
  split
  · exact Or.inr rfl
  next hcond =>
    push_neg at hcond
    obtain ⟨heq, -⟩ := hcond
    have hsch_ne : r.scheme ≠ [] := by
      rw [heq]
      rcases hb with h | h <;> simp [h]
    have hsch_mem : r.scheme ∈ usesNetloc := by
      rw [heq]
      rcases hb with h | h <;> rw [h] <;> decide
    rw [← heq]
    split
    · exact Or.inl (pyUrlunsplit_abs hsch_ne hsch_mem)
    split
    · exact Or.inl (pyUrlunsplit_abs hsch_ne hsch_mem)
    · exact Or.inl (pyUrlunsplit_abs hsch_ne hsch_mem)

theorem pyUrlparse_scheme (u d : Chars) :
    (pyUrlparse u d).scheme = (pyUrlsplit u d).scheme := by
  unfold pyUrlparse
  dsimp only
  split <;> rfl

theorem pyUrlsplit_scheme (u d : Chars) :
    (pyUrlsplit u d).scheme = (schemeSplit (cleanUrl u) (cleanScheme d)).1 := rfl

theorem scanSchemeColon :
    ∀ {p : Chars}, ':' ∉ p → ∀ rest, scanScheme (p ++ ':' :: rest) = some (p, rest) := by
  intro p
  induction p with
  | nil => intro _ rest; simp [scanScheme]
  | cons a as ih =>
    intro h rest
    have ha : ¬ a = ':' := fun hh => h (hh ▸ List.mem_cons_self a as)
    have has : ':' ∉ as := fun hh => h (List.mem_cons_of_mem a hh)
    simp only [List.cons_append, scanScheme, ha, if_false]
    rw [List.append_eq, ih has rest]
    rfl

theorem parse_base_scheme {base rest sch : Chars}
    (hsch : sch = "http".data ∨ sch = "https".data)
    (hbase : base = sch ++ ':' :: '/' :: '/' :: rest)
    (hok : okStringB base = true) :
    (pyUrlparse base []).scheme = sch := by
  rw [pyUrlparse_scheme, pyUrlsplit_scheme, cleanUrl_eq_self_of_ok hok, cleanScheme_nil,
    hbase]
  unfold schemeSplit
  have hnotin : ':' ∉ sch := by rcases hsch with rfl | rfl <;> decide
  rw [scanSchemeColon hnotin]
  rcases hsch with rfl | rfl
  · dsimp only
    rw [if_pos (by decide)]
    rfl
  · dsimp only
    rw [if_pos (by decide)]
    rfl

theorem pyUrljoin_abs {base s rest sch : Chars}
    (hsch : sch = "http".data ∨ sch = "https".data)
    (hbase : base = sch ++ ':' :: '/' :: '/' :: rest)
    (hok : okStringB base = true) (hne : s ≠ []) :
    (∃ t, pyUrljoin base s = sch ++ ':' :: '/' :: '/' :: t) ∨ pyUrljoin base s = s := by
  unfold pyUrljoin
  have hbne : base ≠ [] := by
    rw [hbase]
    rcases hsch with rfl | rfl <;> simp
  rw [if_neg hbne, if_neg hne]
  have hscheme := parse_base_scheme hsch hbase hok
  have habs := @pyUrljoinCore_abs (pyUrlparse base [])
    (pyUrlparse s (pyUrlparse base []).scheme) s (by rw [hscheme]; exact hsch)
  rcases habs with ⟨t, ht⟩ | ht
  · exact Or.inl ⟨t, by rw [ht, hscheme]⟩
  · exact Or.inr ht

theorem startsL_of_shape {sch t l : Chars} (h : l = sch ++ ':' :: '/' :: '/' :: t) :
    startsL (sch ++ [':', '/', '/']) l = true := by
  subst h
  have he : sch ++ ':' :: '/' :: '/' :: t = (sch ++ [':', '/', '/']) ++ t := by simp
  rw [he]
  exact startsL_append _ _

/-! ### Facts about `processLine` and the rewrite loop -/

theorem pyUrljoin_ok {base s : Chars} (hb : okStringB base = true)
    (hs : okStringB s = true) (hne : s ≠ []) :
    okStringB (pyUrljoin base s) = true := by
  apply List.all_eq_true.2
  intro c hc
  refine pyUrljoin_mem (Q := fun c => okCharB c = true) (fun c h => okChar_lowerA h)
    (by decide) (by decide) (by decide) (by decide) (by decide) ?_ ?_ hne c hc
  · intro c' hc'
    exact List.all_eq_true.1 hb c' (mem_cleanUrl hc')
  · intro c' hc'
    exact List.all_eq_true.1 hs c' hc'

theorem nl_not_mem_pyUrljoin {base s : Chars} (hs : '\n' ∉ s) (hne : s ≠ []) :
    '\n' ∉ pyUrljoin base s := by
  intro hmem
  have hb : ∀ c ∈ cleanUrl base, ¬ c = '\n' := by
    intro c hc heq
    subst heq
    have := cleanUrl_not_unsafe hc
    simp [isUnsafeByte] at this
  have hu : ∀ c ∈ s, ¬ c = '\n' := fun c hc heq => hs (heq ▸ hc)
  exact pyUrljoin_mem (Q := fun c => ¬ c = '\n') (fun c h => lowerA_ne_nl h) (by decide)
    (by decide) (by decide) (by decide) (by decide) hb hu hne '\n' hmem rfl

theorem nl_not_mem_pyStrip {l : Chars} (h : '\n' ∉ l) : '\n' ∉ pyStrip l :=
  fun hm => h (mem_of_mem_pyStrip hm)

theorem processLine_of_blank {base line : Chars} (h : pyStrip line = []) :
    processLine base line = [] := by
  unfold processLine
  rw [if_neg (by simp [h])]
  exact h

theorem processLine_of_comment {base line : Chars}
    (h : startsL ['#'] (pyStrip line) = true) :
    processLine base line = pyStrip line := by
  unfold processLine
  rw [if_neg (by simp [h])]

theorem startsL_ne_nil {a : Char} {p l : Chars} (h : startsL (a :: p) l = true) :
    l ≠ [] := by
  obtain ⟨t, rfl⟩ := (startsL_iff _ _).1 h
  simp

theorem not_hash_of_http {s : Chars}
    (h : startsL ("http://".data) s = true ∨ startsL ("https://".data) s = true) :
    ¬ startsL ['#'] s = true := by
  intro h2
  obtain ⟨t2, rfl⟩ := (startsL_iff _ _).1 h2
  rcases h with h | h <;>
  · obtain ⟨t, he⟩ := (startsL_iff _ _).1 h
    simp at he

theorem processLine_of_abs {base line : Chars}
    (h : startsL ("http://".data) (pyStrip line) = true ∨
      startsL ("https://".data) (pyStrip line) = true) :
    processLine base line = pyStrip line := by
  unfold processLine
  have hne : pyStrip line ≠ [] := by
    rcases h with h | h
    · exact startsL_ne_nil (p := "ttp://".data) h
    · exact startsL_ne_nil (p := "ttps://".data) h
  rw [if_pos ⟨hne, not_hash_of_http h⟩,
    if_neg (fun hc => h.elim (fun ha => hc.1 ha) (fun hb => hc.2 hb))]

theorem processLine_of_rel {base line : Chars}
    (h1 : pyStrip line ≠ []) (h2 : ¬ startsL ['#'] (pyStrip line) = true)
    (h3 : ¬ startsL ("http://".data) (pyStrip line) = true)
    (h4 : ¬ startsL ("https://".data) (pyStrip line) = true) :
    processLine base line = pyUrljoin base (pyStrip line) := by
  unfold processLine
  rw [if_pos ⟨h1, h2⟩, if_pos ⟨h3, h4⟩]

theorem nl_not_mem_processLine {base line : Chars} (h : '\n' ∉ line) :
    '\n' ∉ processLine base line := by
  by_cases hb1 : pyStrip line = []
  · rw [processLine_of_blank hb1]
    simp
  by_cases hb2 : startsL ['#'] (pyStrip line) = true
  · rw [processLine_of_comment hb2]
    exact nl_not_mem_pyStrip h
  by_cases hb3 : startsL ("http://".data) (pyStrip line) = true ∨
      startsL ("https://".data) (pyStrip line) = true
  · rw [processLine_of_abs hb3]
    exact nl_not_mem_pyStrip h
  · obtain ⟨h3, h4⟩ := not_or.1 hb3
    rw [processLine_of_rel hb1 hb2 h3 h4]
    exact nl_not_mem_pyUrljoin (nl_not_mem_pyStrip h) hb1

/-- The lines of the rewritten manifest are exactly the processed lines of
the input, in order. -/
theorem lines_rewrite (t base : Chars) :
    splitCh '\n' (rewriteL t base) = (splitCh '\n' t).map (processLine base) := by
  unfold rewriteL
  apply splitCh_joinCh
  · intro h
    exact splitCh_ne_nil '\n' t (List.map_eq_nil.1 h)
  · intro p hp
    obtain ⟨line, hline, rfl⟩ := List.mem_map.1 hp
    exact nl_not_mem_processLine (not_mem_of_mem_splitCh '\n' hline)

/-- Idempotence of a single line under processing, for a clean absolute
http/https base and a line whose trimmed content, when it is a relative
reference, is whitespace- and control-free. -/
theorem processLine_idem {base line rest sch : Chars}
    (hsch : sch = "http".data ∨ sch = "https".data)
    (hbase : base = sch ++ ':' :: '/' :: '/' :: rest)
    (hok : okStringB base = true)
    (hrel : pyStrip line ≠ [] → ¬ startsL ['#'] (pyStrip line) = true →
      ¬ startsL ("http://".data) (pyStrip line) = true →
      ¬ startsL ("https://".data) (pyStrip line) = true →
      okStringB (pyStrip line) = true) :
    processLine base (processLine base line) = processLine base line := by
  by_cases hb1 : pyStrip line = []
  · rw [processLine_of_blank hb1]
    exact processLine_of_blank rfl
  by_cases hb2 : startsL ['#'] (pyStrip line) = true
  · rw [processLine_of_comment hb2]
    rw [processLine_of_comment (by rw [pyStrip_idem]; exact hb2)]
    exact pyStrip_idem line
  by_cases hb3 : startsL ("http://".data) (pyStrip line) = true ∨
      startsL ("https://".data) (pyStrip line) = true
  · rw [processLine_of_abs hb3]
    rw [processLine_of_abs (by rw [pyStrip_idem]; exact hb3)]
    exact pyStrip_idem line
  · obtain ⟨h3, h4⟩ := not_or.1 hb3
    have hokS := hrel hb1 hb2 h3 h4
    rw [processLine_of_rel hb1 hb2 h3 h4]
    rcases pyUrljoin_abs (s := pyStrip line) hsch hbase hok hb1 with ⟨t, ht⟩ | hfix
    · have hoku : okStringB (pyUrljoin base (pyStrip line)) = true :=
        pyUrljoin_ok hok hokS hb1
      have hstripu : pyStrip (pyUrljoin base (pyStrip line)) =
          pyUrljoin base (pyStrip line) := pyStrip_eq_self_of_ok hoku
      have habs2 : startsL ("http://".data) (pyStrip (pyUrljoin base (pyStrip line))) = true ∨
          startsL ("https://".data) (pyStrip (pyUrljoin base (pyStrip line))) = true := by
        rw [hstripu]
        rcases hsch with rfl | rfl
        · exact Or.inl (startsL_of_shape ht)
        · exact Or.inr (startsL_of_shape ht)
      rw [processLine_of_abs habs2, hstripu]
    · rw [hfix]
      have hss : pyStrip (pyStrip line) = pyStrip line := pyStrip_idem line
      rw [processLine_of_rel (by rw [hss]; exact hb1) (by rw [hss]; exact hb2)
        (by rw [hss]; exact h3) (by rw [hss]; exact h4)]
      rw [hss, hfix]

/-- Idempotence of the whole rewrite under the same conditions. -/
theorem rewriteL_idem {t base rest sch : Chars}
    (hsch : sch = "http".data ∨ sch = "https".data)
    (hbase : base = sch ++ ':' :: '/' :: '/' :: rest)
    (hok : okStringB base = true)
    (hlines : ∀ line ∈ splitCh '\n' t, pyStrip line ≠ [] →
      ¬ startsL ['#'] (pyStrip line) = true →
      ¬ startsL ("http://".data) (pyStrip line) = true →
      ¬ startsL ("https://".data) (pyStrip line) = true →
      okStringB (pyStrip line) = true) :
    rewriteL (rewriteL t base) base = rewriteL t base := by
  conv_lhs => rw [show rewriteL (rewriteL t base) base =
    joinCh '\n' ((splitCh '\n' (rewriteL t base)).map (processLine base)) from rfl,
    lines_rewrite t base]
  rw [List.map_map]
  show joinCh '\n' ((splitCh '\n' t).map (processLine base ∘ processLine base)) = rewriteL t base
  unfold rewriteL
  congr 1
  apply List.map_congr_left
  intro line hline
  exact processLine_idem hsch hbase hok (hlines line hline)

/-! ### Facts about the rewrite's raise behaviour -/

theorem rewriteStrE_ok {t base r : String} (h : rewriteStrE t base = .ok r) :
    rewriteErr t.data base.data = none ∧ r = rewriteStr t base := by
  unfold rewriteStrE rewriteLE at h
  cases he : rewriteErr t.data base.data with
  | some e =>
    rw [he] at h
    simp at h
  | none =>
    rw [he] at h
    dsimp only at h
    exact ⟨rfl, (Except.ok.inj h).symm⟩

theorem rewriteStrE_ok_intro {t base : String}
    (h : rewriteErr t.data base.data = none) :
    rewriteStrE t base = .ok ⟨rewriteL t.data base.data⟩ := by
  unfold rewriteStrE rewriteLE
  rw [h]

theorem pyUrljoinE_ok {base u : Chars} (h : urljoinErr base u = none) :
    pyUrljoinE base u = .ok (pyUrljoin base u) := by
  unfold pyUrljoinE
  rw [h]

theorem processLineErr_of_blank {base line : Chars} (h : pyStrip line = []) :
    processLineErr base line = none := by
  unfold processLineErr
  rw [if_neg (by simp [h])]

theorem processLineErr_of_comment {base line : Chars}
    (h : startsL ['#'] (pyStrip line) = true) :
    processLineErr base line = none := by
  unfold processLineErr
  rw [if_neg (by simp [h])]

theorem processLineErr_of_abs {base line : Chars}
    (h : startsL ("http://".data) (pyStrip line) = true ∨
      startsL ("https://".data) (pyStrip line) = true) :
    processLineErr base line = none := by
  unfold processLineErr
  have hne : pyStrip line ≠ [] := by
    rcases h with h | h
    · exact startsL_ne_nil (p := "ttp://".data) h
    · exact startsL_ne_nil (p := "ttps://".data) h
  rw [if_pos ⟨hne, not_hash_of_http h⟩,
    if_neg (fun hc => h.elim (fun ha => hc.1 ha) (fun hb => hc.2 hb))]

theorem processLineErr_of_rel {base line : Chars}
    (h1 : pyStrip line ≠ []) (h2 : ¬ startsL ['#'] (pyStrip line) = true)
    (h3 : ¬ startsL ("http://".data) (pyStrip line) = true)
    (h4 : ¬ startsL ("https://".data) (pyStrip line) = true) :
    processLineErr base line = urljoinErr base (pyStrip line) := by
  unfold processLineErr
  rw [if_pos ⟨h1, h2⟩, if_pos ⟨h3, h4⟩]

/-- A processed line raises nothing on a second pass: blank, comment and
absolute lines stay in the raise-free branches, the resolved output of a
relative line is either itself absolute or the very reference the accepted
first pass already joined. -/
theorem processLineErr_processLine {base line rest sch : Chars}
    (hsch : sch = "http".data ∨ sch = "https".data)
    (hbase : base = sch ++ ':' :: '/' :: '/' :: rest)
    (hok : okStringB base = true)
    (hrel : pyStrip line ≠ [] → ¬ startsL ['#'] (pyStrip line) = true →
      ¬ startsL ("http://".data) (pyStrip line) = true →
      ¬ startsL ("https://".data) (pyStrip line) = true →
      okStringB (pyStrip line) = true)
    (herr : processLineErr base line = none) :
    processLineErr base (processLine base line) = none := by
  by_cases hb1 : pyStrip line = []
  · rw [processLine_of_blank hb1]
    exact processLineErr_of_blank rfl
  by_cases hb2 : startsL ['#'] (pyStrip line) = true
  · rw [processLine_of_comment hb2]
    exact processLineErr_of_comment (by rw [pyStrip_idem]; exact hb2)
  by_cases hb3 : startsL ("http://".data) (pyStrip line) = true ∨
      startsL ("https://".data) (pyStrip line) = true
  · rw [processLine_of_abs hb3]
    exact processLineErr_of_abs (by rw [pyStrip_idem]; exact hb3)
  · obtain ⟨h3, h4⟩ := not_or.1 hb3
    have hokS := hrel hb1 hb2 h3 h4
    rw [processLine_of_rel hb1 hb2 h3 h4]
    rcases pyUrljoin_abs (s := pyStrip line) hsch hbase hok hb1 with ⟨u, hu⟩ | hfix
    · have hoku : okStringB (pyUrljoin base (pyStrip line)) = true :=
        pyUrljoin_ok hok hokS hb1
      have hstripu : pyStrip (pyUrljoin base (pyStrip line)) =
          pyUrljoin base (pyStrip line) := pyStrip_eq_self_of_ok hoku
      refine processLineErr_of_abs ?_
      rw [hstripu]
      rcases hsch with rfl | rfl
      · exact Or.inl (startsL_of_shape hu)
      · exact Or.inr (startsL_of_shape hu)
    · rw [hfix]
      have hss : pyStrip (pyStrip line) = pyStrip line := pyStrip_idem line
      rw [processLineErr_of_rel (by rw [hss]; exact hb1) (by rw [hss]; exact hb2)
        (by rw [hss]; exact h3) (by rw [hss]; exact h4), hss]
      rw [processLineErr_of_rel hb1 hb2 h3 h4] at herr
      exact herr

/-- An accepted rewrite's output is accepted again in full. -/
theorem rewriteErr_idem {t base rest sch : Chars}
    (hsch : sch = "http".data ∨ sch = "https".data)
    (hbase : base = sch ++ ':' :: '/' :: '/' :: rest)
    (hok : okStringB base = true)
    (hlines : ∀ line ∈ splitCh '\n' t, pyStrip line ≠ [] →
      ¬ startsL ['#'] (pyStrip line) = true →
      ¬ startsL ("http://".data) (pyStrip line) = true →
      ¬ startsL ("https://".data) (pyStrip line) = true →
      okStringB (pyStrip line) = true)
    (herr : rewriteErr t base = none) :
    rewriteErr (rewriteL t base) base = none := by
  unfold rewriteErr at herr ⊢
  rw [lines_rewrite, List.findSome?_map]
  refine List.findSome?_eq_none_iff.2 ?_
  intro line hline
  show processLineErr base (processLine base line) = none
  exact processLineErr_processLine hsch hbase hok (hlines line hline)
    (List.findSome?_eq_none_iff.1 herr line hline)

/-! ### Specification-side definition: RFC 3986 section 5 reference
resolution.  The specification describes the rewriter's resolution step as
standard URL-reference resolution per RFC 3986 section 5; the following
definitions follow the RFC's algorithm (parsing per appendix A/B, merge
and remove_dot_segments per 5.2.3/5.2.4, strict resolution per 5.2.2,
recomposition per 5.3) and are used only to compare the code's behaviour
against that description. -/

/-- An RFC 3986 URI reference split into its five components; absent and
empty components are distinguished. -/
structure RfcURI where
  scheme : Option Chars
  authority : Option Chars
  path : Chars
  query : Option Chars
  fragment : Option Chars
deriving DecidableEq

/-- Path, query and fragment of an RFC reference (after scheme and
authority have been removed). -/
def rfcPathEtc (sch auth : Option Chars) (rest : Chars) : RfcURI :=
  let path := rest.takeWhile (fun c => !(c = '?' || c = '#'))
  let rest2 := rest.drop path.length
  match rest2 with
  | '?' :: qs =>
    let q := qs.takeWhile (fun c => !(c = '#'))
    match qs.drop q.length with
    | '#' :: fs => ⟨sch, auth, path, some q, some fs⟩
    | _ => ⟨sch, auth, path, some q, none⟩
  | '#' :: fs => ⟨sch, auth, path, none, some fs⟩
  | _ => ⟨sch, auth, path, none, none⟩

/-- Authority detection of an RFC reference (`"//" authority`). -/
def rfcAfterScheme (sch : Option Chars) (rest : Chars) : RfcURI :=
  if startsL ['/', '/'] rest then
    let auth := (rest.drop 2).takeWhile (fun c => !(c = '/' || c = '?' || c = '#'))
    rfcPathEtc sch (some auth) ((rest.drop 2).drop auth.length)
  else rfcPathEtc sch none rest

/-- RFC 3986 parsing of a URI reference (scheme per the
`ALPHA *( ALPHA / DIGIT / "+" / "-" / "." )` grammar). -/
def rfcParse (s : Chars) : RfcURI :=
  match scanScheme s with
  | some (tok, rest) =>
    if schemeTokValid tok then rfcAfterScheme (some tok) rest
    else rfcAfterScheme none s
  | none => rfcAfterScheme none s

/-- Step 2C of `remove_dot_segments`: remove the last segment and its
preceding `/` (if any) from the output buffer. -/
def removeLastSegment (out : Chars) : Chars :=
  match (out.reverse.dropWhile (fun c => !(c = '/'))) with
  | '/' :: r => r.reverse
  | other => other.reverse

/-- One run of the RFC 3986 section 5.2.4 `remove_dot_segments` loop,
structured over a fuel counter.  Every loop iteration strictly shortens the
input (by at least one character), so `input.length` iterations always
suffice; the fuel-exhaustion arm is unreachable when called with that
fuel. -/
def rdsRun : Nat → Chars → Chars → Chars
  | 0, out, input => out ++ input
  | fuel + 1, out, input =>
    if input = [] then out
    else if startsL ("../".data) input then rdsRun fuel out (input.drop 3)
    else if startsL ("./".data) input then rdsRun fuel out (input.drop 2)
    else if startsL ("/./".data) input then rdsRun fuel out ('/' :: input.drop 3)
    else if input = "/.".data then rdsRun fuel out ['/']
    else if startsL ("/../".data) input then
      rdsRun fuel (removeLastSegment out) ('/' :: input.drop 4)
    else if input = "/..".data then rdsRun fuel (removeLastSegment out) ['/']
    else if input = ['.'] ∨ input = ['.', '.'] then out
    else
      match input with
      | [] => out
      | c :: rest =>
        rdsRun fuel (out ++ c :: rest.takeWhile (fun c => !(c = '/')))
          (rest.drop (rest.takeWhile (fun c => !(c = '/'))).length)

/-- RFC 3986 section 5.2.4 `remove_dot_segments`, with `out` the output
buffer. -/
def removeDotSegments (out input : Chars) : Chars := rdsRun input.length out input

/-- RFC 3986 section 5.2.3 `merge`. -/
def rfcMerge (baseAuth : Option Chars) (basePath refPath : Chars) : Chars :=
  if baseAuth ≠ none ∧ basePath = [] then '/' :: refPath
  else (basePath.reverse.dropWhile (fun c => !(c = '/'))).reverse ++ refPath

/-- RFC 3986 section 5.2.2 transform-references algorithm (strict
variant). -/
def rfcResolveComponents (b r : RfcURI) : RfcURI :=
  match r.scheme with
  | some _ => ⟨r.scheme, r.authority, removeDotSegments [] r.path, r.query, r.fragment⟩
  | none =>
    match r.authority with
    | some _ => ⟨b.scheme, r.authority, removeDotSegments [] r.path, r.query, r.fragment⟩
    | none =>
      if r.path = [] then
        ⟨b.scheme, b.authority, b.path,
          (match r.query with | some q => some q | none => b.query), r.fragment⟩
      else if startsL ['/'] r.path then
        ⟨b.scheme, b.authority, removeDotSegments [] r.path, r.query, r.fragment⟩
      else
        ⟨b.scheme, b.authority,
          removeDotSegments [] (rfcMerge b.authority b.path r.path), r.query, r.fragment⟩

/-- RFC 3986 section 5.3 recomposition. -/
def rfcRecompose (u : RfcURI) : Chars :=
  (match u.scheme with | some s => s ++ [':'] | none => []) ++
  (match u.authority with | some a => '/' :: '/' :: a | none => []) ++
  u.path ++
  (match u.query with | some q => '?' :: q | none => []) ++
  (match u.fragment with | some f => '#' :: f | none => [])

/-- RFC 3986 section 5 reference resolution on strings. -/
def rfc3986Resolve (base ref : String) : String :=
  ⟨rfcRecompose (rfcResolveComponents (rfcParse base.data) (rfcParse ref.data))⟩

/-! ### The locator only finds text containing `.m3u8` -/

theorem hasSeq_of_part {pre seg post pat : Chars} (h : hasSeq pat seg = true) :
    hasSeq pat (pre ++ seg ++ post) = true := by
  obtain ⟨a, b, rfl⟩ := (hasSeq_iff pat seg).1 h
  refine (hasSeq_iff pat _).2 ⟨pre ++ a, b ++ post, ?_⟩
  simp

theorem hasSeqCI_extend {pre seg post pat l : Chars} (h : hasSeqCI pat seg = true)
    (hdec : l = pre ++ seg ++ post) : hasSeqCI pat l = true := by
  unfold hasSeqCI at h ⊢
  rw [hdec, List.map_append, List.map_append]
  exact hasSeq_of_part h

theorem matchP1At_m3u8 {l r : Chars} (h : matchP1At l = some r) :
    hasSeqCI m3u8Pat l = true := by
  unfold matchP1At at h
  revert h
  split
  · dsimp only
    split
    · next hc =>
      intro _
      refine @hasSeqCI_extend (l.take 5) _
        ((l.drop 5).dropWhile (fun c => !(c = quoteC))) _ _ hc.2 ?_
      simp only [List.append_assoc, List.takeWhile_append_dropWhile, List.take_append_drop]
    · intro h
      simp at h
  · intro h
    simp at h

theorem matchP2At_m3u8 {l r : Chars} (h : matchP2At l = some r) :
    hasSeqCI m3u8Pat l = true := by
  unfold matchP2At at h
  revert h
  split
  · dsimp only
    split
    · next hc =>
      intro _
      refine @hasSeqCI_extend (l.take 5) _
        ((l.drop 5).dropWhile (fun c => !(c = aposC))) _ _ hc.2 ?_
      simp only [List.append_assoc, List.takeWhile_append_dropWhile, List.take_append_drop]
    · intro h
      simp at h
  · intro h
    simp at h

theorem matchScheme_split {l sch rest : Chars} (h : matchScheme l = some (sch, rest)) :
    ∃ k, sch = l.take k ∧ rest = l.drop k := by
  unfold matchScheme at h
  revert h
  split
  · intro h
    have h2 : (l.take 8, l.drop 8) = (sch, rest) := Option.some.inj h
    rw [Prod.mk.injEq] at h2
    exact ⟨8, h2.1.symm, h2.2.symm⟩
  split
  · intro h
    have h2 : (l.take 7, l.drop 7) = (sch, rest) := Option.some.inj h
    rw [Prod.mk.injEq] at h2
    exact ⟨7, h2.1.symm, h2.2.symm⟩
  · intro h
    simp at h

theorem matchP3At_m3u8 {l r : Chars} (h : matchP3At l = some r) :
    hasSeqCI m3u8Pat l = true := by
  unfold matchP3At at h
  revert h
  split
  · intro h
    simp at h
  next c rest =>
    split
    · intro h
      revert h
      cases hms : matchScheme rest with
      | none => intro h; simp at h
      | some pr =>
        obtain ⟨k, hsch, hrest⟩ := matchScheme_split (show matchScheme rest = some (pr.1, pr.2) by rw [hms])
        dsimp only
        split
        · next hc =>
          intro _
          refine @hasSeqCI_extend (c :: rest.take k) _
            (pr.2.dropWhile (fun c => !(c = quoteC))) _ _ hc.2 ?_
          rw [hrest]
          simp only [List.cons_append, List.append_assoc,
            List.takeWhile_append_dropWhile, List.take_append_drop]
        · intro h
          simp at h
    · intro h
      simp at h

theorem matchP4At_m3u8 {l r : Chars} (h : matchP4At l = some r) :
    hasSeqCI m3u8Pat l = true := by
  unfold matchP4At at h
  revert h
  cases hms : matchScheme l with
  | none => intro h; simp at h
  | some pr =>
    obtain ⟨k, hsch, hrest⟩ := matchScheme_split (show matchScheme l = some (pr.1, pr.2) by rw [hms])
    dsimp only
    split
    · next hc =>
      intro _
      refine @hasSeqCI_extend (l.take k) _
        (pr.2.dropWhile (fun c => !isBareDelim c)) _ _ hc ?_
      rw [hrest]
      simp only [List.append_assoc, List.takeWhile_append_dropWhile,
        List.take_append_drop]
    · intro h
      simp at h

theorem searchWith_some {m : Chars → Option Chars} :
    ∀ {l r : Chars}, searchWith m l = some r → ∃ pre tail, l = pre ++ tail ∧ m tail = some r := by
  intro l
  induction l with
  | nil =>
    intro r h
    exact ⟨[], [], by simp, h⟩
  | cons c rest ih =>
    intro r h
    unfold searchWith at h
    revert h
    cases hm : m (c :: rest) with
    | some x =>
      intro h
      have := Option.some.inj h
      exact ⟨[], c :: rest, by simp, by rw [hm, this]⟩
    | none =>
      intro h
      obtain ⟨pre, tail, heq, hmt⟩ := ih h
      exact ⟨c :: pre, tail, by rw [heq]; rfl, hmt⟩

theorem locateL_some_m3u8 {html u : Chars} (h : locateL html = some u) :
    hasSeqCI m3u8Pat html = true := by
  have key : ∀ (m : Chars → Option Chars),
      (∀ {l r : Chars}, m l = some r → hasSeqCI m3u8Pat l = true) →
      searchWith m html = some u → hasSeqCI m3u8Pat html = true := by
    intro m hm hs
    obtain ⟨pre, tail, rfl, hmt⟩ := searchWith_some hs
    have := hm hmt
    unfold hasSeqCI at this ⊢
    rw [List.map_append]
    obtain ⟨a, b, hab⟩ := (hasSeq_iff _ _).1 this
    exact (hasSeq_iff _ _).2 ⟨pre.map lowerRe ++ a, b, by rw [hab]; simp⟩
  unfold locateL at h
  revert h
  cases h1 : searchWith matchP1At html with
  | some x => intro h; exact key _ matchP1At_m3u8 (by rw [h1, Option.some.inj h])
  | none =>
    cases h2 : searchWith matchP2At html with
    | some x => intro h; exact key _ matchP2At_m3u8 (by rw [h2, Option.some.inj h])
    | none =>
      cases h3 : searchWith matchP3At html with
      | some x => intro h; exact key _ matchP3At_m3u8 (by rw [h3, Option.some.inj h])
      | none =>
        intro h
        exact key _ matchP4At_m3u8 h

/-! ### Statement-level helpers -/

/-- Lines of a string, split on the newline character. -/
def linesOf (s : String) : List Chars := splitCh '\n' s.data

/-- Number of newline-separated lines of a string. -/
def numLines (s : String) : Nat := (linesOf s).length

/-- Substring relation on strings (`p` occurs contiguously in `s`). -/
def strInfix (p s : String) : Prop := hasSeq p.data s.data = true

/-- A one-character string holding the double quote. -/
def quoteS : String := ⟨[quoteC]⟩

/-- The concrete embed-page document of the specification's locator
example (`src="https://cdn.example/x.m3u8"` inside a video tag). -/
def exampleEmbedHtml : String :=
  "<video src=" ++ quoteS ++ "https://cdn.example/x.m3u8" ++ quoteS ++ "></video>"

/-- A document exercising `re.IGNORECASE`'s Unicode fold: the scheme is
spelled with U+017F LATIN SMALL LETTER LONG S, which the flag makes
equivalent to `s`, so pattern 3 matches (and captures the original
spelling). -/
def exampleLongSHtml : String :=
  "x " ++ quoteS ++ "httpſ://cdn/x.m3u8" ++ quoteS ++ " y"

/-- A document whose first `src` is spelled with U+017F: under the Unicode
fold pattern 1 matches it, so the double-quoted URL wins over the
later single-quoted one. -/
def exampleLongSrcHtml : String :=
  "ſrc=" ++ quoteS ++ "https://a/x.m3u8" ++ quoteS ++ " src=" ++ ⟨[aposC]⟩ ++
    "https://b/y.m3u8" ++ ⟨[aposC]⟩

/-! ### Claims about the manifest rewriter -/

/-- C5, counterexample to the claim as stated: on the manifest text `//[x`
the rewrite loop's `urljoin` raises `ValueError('Invalid IPv6 URL')`, so
the program produces no output at all — there is no output whose line
count could equal the input's. -/
theorem claim_C5_counterexample :
    rewriteStrE "//[x" "https://h/p/m.m3u8" = .error UrlErr.invalidIPv6 := rfl

/-- C5 (amended): whenever the rewrite completes without raising (that is,
`urljoin` accepts every relative line), the output is the processed lines
rejoined on the same newline separator used to split, with exactly as many
lines as the input. -/
theorem claim_C5_line_count : ∀ (t base r : String),
    rewriteStrE t base = .ok r →
    r = ⟨joinCh '\n' ((linesOf t).map (processLine base.data))⟩ ∧
    numLines r = numLines t := by
  intro t base r h
  obtain ⟨-, rfl⟩ := rewriteStrE_ok h
  refine ⟨rfl, ?_⟩
  show (splitCh '\n' (rewriteL t.data base.data)).length = (splitCh '\n' t.data).length
  rw [lines_rewrite, List.length_map]

/-- C5 witness: the amended claim applied to a concrete completing
rewrite. -/
theorem claim_C5_witness :
    ("#c\nhttps://h/p/seg.ts" : String) =
      ⟨joinCh '\n' ((linesOf "#c\nseg.ts").map
        (processLine ("https://h/p/m.m3u8" : String).data))⟩ ∧
    numLines "#c\nhttps://h/p/seg.ts" = numLines "#c\nseg.ts" :=
  claim_C5_line_count "#c\nseg.ts" "https://h/p/m.m3u8" "#c\nhttps://h/p/seg.ts" rfl

/-- C2, counterexample to the claim as stated: the program's rewrite
completes on the one-line manifest ` #x`, but the comment line is not
reproduced character for character; its surrounding whitespace is
trimmed. -/
theorem claim_C2_counterexample :
    rewriteStrE " #x" "https://h/p/m.m3u8" = .ok "#x" ∧ (" #x" : String) ≠ "#x" :=
  ⟨rfl, by decide⟩

/-- C2 (amended): whenever the rewrite completes without raising, every
blank line and every comment line (trimmed content empty or beginning with
`#`) appears in the output at its original position with its leading and
trailing whitespace trimmed (a blank line becomes empty), and is never
resolved against the base (the output line does not depend on the
base). -/
theorem claim_C2_blank_comment : ∀ (t base r : String) (i : Nat) (line : Chars),
    rewriteStrE t base = .ok r →
    (linesOf t)[i]? = some line →
    (pyStrip line = [] ∨ startsL ['#'] (pyStrip line) = true) →
    (linesOf r)[i]? = some (pyStrip line) := by
  intro t base r i line h hget hbc
  obtain ⟨-, rfl⟩ := rewriteStrE_ok h
  have hget2 : (splitCh '\n' t.data)[i]? = some line := hget
  show (splitCh '\n' (rewriteL t.data base.data))[i]? = _
  rw [lines_rewrite, List.getElem?_map, hget2, Option.map_some']
  rcases hbc with h | h
  · rw [processLine_of_blank h, h]
  · rw [processLine_of_comment h]

/-- C2 witness: the amended claim applied to a concrete manifest. -/
theorem claim_C2_witness :
    (linesOf ("#c\nhttps://h/x.ts" : String))[0]? = some (pyStrip (" #c ".data)) :=
  claim_C2_blank_comment " #c \nx.ts" "https://h/" "#c\nhttps://h/x.ts" 0
    (" #c ".data) rfl rfl (Or.inr (by decide))

/-- C4, counterexample to the claim as stated: Python's `urljoin` is not
RFC 3986 reference resolution; it collapses the empty interior path
segment of the merged path, so resolving `x.ts` against a base whose path
contains `//` differs from the RFC 3986 result (the program's rewrite
completes on this input). -/
theorem claim_C4_counterexample :
    rewriteStrE "x.ts" "https://host/a//b/c.m3u8" = .ok "https://host/a/b/x.ts" ∧
    rfc3986Resolve "https://host/a//b/c.m3u8" "x.ts" = "https://host/a//b/x.ts" ∧
    ("https://host/a/b/x.ts" : String) ≠ "https://host/a//b/x.ts" :=
  ⟨rfl, rfl, by decide⟩

/-- C4 (amended): whenever the rewrite completes without raising, for
every non-blank, non-comment line: if its trimmed content begins with
`http://` or `https://` the output line is the trimmed content; otherwise
`urljoin` accepted the trimmed content and the output line is its result —
Python urllib's `urljoin`, which follows RFC 3986 resolution except that
empty interior segments of the merged path are collapsed (a line `urljoin`
rejects makes the whole rewrite raise instead); in particular
`segment1.ts` against `https://host/path/manifest.m3u8` yields
`https://host/path/segment1.ts`, and `/seg/1.ts` yields
`https://host/seg/1.ts`. -/
theorem claim_C4_resolution :
    (∀ (t base r : String) (i : Nat) (line : Chars),
      rewriteStrE t base = .ok r →
      (linesOf t)[i]? = some line →
      pyStrip line ≠ [] →
      ¬ startsL ['#'] (pyStrip line) = true →
      ((startsL ("http://".data) (pyStrip line) = true ∨
          startsL ("https://".data) (pyStrip line) = true) →
        (linesOf r)[i]? = some (pyStrip line)) ∧
      (¬ startsL ("http://".data) (pyStrip line) = true →
        ¬ startsL ("https://".data) (pyStrip line) = true →
        pyUrljoinE base.data (pyStrip line) =
          .ok (pyUrljoin base.data (pyStrip line)) ∧
        (linesOf r)[i]? = some (pyUrljoin base.data (pyStrip line)))) ∧
    rewriteStrE "segment1.ts" "https://host/path/manifest.m3u8" =
      .ok "https://host/path/segment1.ts" ∧
    rewriteStrE "/seg/1.ts" "https://host/path/manifest.m3u8" =
      .ok "https://host/seg/1.ts" := by
  refine ⟨?_, rfl, rfl⟩
  intro t base r i line h hget h1 h2
  obtain ⟨herr, rfl⟩ := rewriteStrE_ok h
  have hget2 : (splitCh '\n' t.data)[i]? = some line := hget
  have hmem : line ∈ splitCh '\n' t.data := List.getElem?_mem hget2
  have hple : processLineErr base.data line = none := by
    unfold rewriteErr at herr
    exact List.findSome?_eq_none_iff.1 herr line hmem
  constructor
  · intro habs
    show (splitCh '\n' (rewriteL t.data base.data))[i]? = _
    rw [lines_rewrite, List.getElem?_map, hget2, Option.map_some',
      processLine_of_abs habs]
  · intro h3 h4
    rw [processLineErr_of_rel h1 h2 h3 h4] at hple
    refine ⟨pyUrljoinE_ok hple, ?_⟩
    show (splitCh '\n' (rewriteL t.data base.data))[i]? = _
    rw [lines_rewrite, List.getElem?_map, hget2, Option.map_some',
      processLine_of_rel h1 h2 h3 h4]

/-- C4 witness: the amended claim applied to a concrete relative line. -/
theorem claim_C4_witness :
    pyUrljoinE ("https://host/path/m.m3u8" : String).data
        (pyStrip ("seg.ts" : String).data) =
      .ok (pyUrljoin ("https://host/path/m.m3u8" : String).data
        (pyStrip ("seg.ts" : String).data)) ∧
    (linesOf ("https://host/path/seg.ts" : String))[0]? =
      some (pyUrljoin ("https://host/path/m.m3u8" : String).data
        (pyStrip ("seg.ts" : String).data)) :=
  (claim_C4_resolution.1 "seg.ts" "https://host/path/m.m3u8"
    "https://host/path/seg.ts" 0 ("seg.ts" : String).data rfl rfl (by decide)
    (by decide)).2 (by decide) (by decide)

/-- C10, counterexample to the claim as stated: with a base beginning with
`https://`, one completing rewrite pass can leave a line with trailing
whitespace (here the fragment-free part of `a #` resolves to a URL ending
in a space), which a second pass trims, so the rewrite is not
idempotent. -/
theorem claim_C10_counterexample :
    rewriteStrE "a #" "https://host/path/m.m3u8" = .ok "https://host/path/a " ∧
    rewriteStrE "https://host/path/a " "https://host/path/m.m3u8" =
      .ok "https://host/path/a" ∧
    ("https://host/path/a" : String) ≠ "https://host/path/a " :=
  ⟨rfl, rfl, by decide⟩

/-- C10 (amended): for every base URL that begins with `http://` or
`https://` and contains no whitespace or control characters, and every
manifest text in which the trimmed content of each non-blank, non-comment,
non-absolute line contains no whitespace or control characters, a rewrite
that completes without raising is idempotent: rewriting its output
completes as well and reproduces it. -/
theorem claim_C10_idempotent : ∀ (t base r : String),
    (startsL ("http://".data) base.data = true ∨
      startsL ("https://".data) base.data = true) →
    okStringB base.data = true →
    (∀ line ∈ linesOf t, pyStrip line ≠ [] →
      ¬ startsL ['#'] (pyStrip line) = true →
      ¬ startsL ("http://".data) (pyStrip line) = true →
      ¬ startsL ("https://".data) (pyStrip line) = true →
      okStringB (pyStrip line) = true) →
    rewriteStrE t base = .ok r →
    rewriteStrE r base = .ok r := by
  intro t base r habs hok hlines h
  obtain ⟨herr, rfl⟩ := rewriteStrE_ok h
  have hdata : rewriteL (rewriteL t.data base.data) base.data =
      rewriteL t.data base.data := by
    rcases habs with h' | h'
    · obtain ⟨q, hq⟩ := (startsL_iff _ _).1 h'
      refine @rewriteL_idem t.data base.data q ("http".data) (Or.inl rfl) ?_ hok hlines
      rw [hq]
      rfl
    · obtain ⟨q, hq⟩ := (startsL_iff _ _).1 h'
      refine @rewriteL_idem t.data base.data q ("https".data) (Or.inr rfl) ?_ hok hlines
      rw [hq]
      rfl
  have herr2 : rewriteErr (rewriteStr t base).data base.data = none := by
    show rewriteErr (rewriteL t.data base.data) base.data = none
    rcases habs with h' | h'
    · obtain ⟨q, hq⟩ := (startsL_iff _ _).1 h'
      refine @rewriteErr_idem t.data base.data q ("http".data) (Or.inl rfl) ?_ hok
        hlines herr
      rw [hq]
      rfl
    · obtain ⟨q, hq⟩ := (startsL_iff _ _).1 h'
      refine @rewriteErr_idem t.data base.data q ("https".data) (Or.inr rfl) ?_ hok
        hlines herr
      rw [hq]
      rfl
  calc rewriteStrE (rewriteStr t base) base
      = .ok ⟨rewriteL (rewriteStr t base).data base.data⟩ :=
        rewriteStrE_ok_intro herr2
    _ = .ok (rewriteStr t base) := by
        show Except.ok (⟨rewriteL (rewriteL t.data base.data) base.data⟩ : String) = _
        rw [hdata]
        rfl

/-- C6: the locator applies the four patterns in their fixed priority
order and returns the first pattern's capture, never consulting a
lower-priority pattern once a higher one matched; it returns none (without
raising) when no pattern matches, and in particular whenever the document
has no case-insensitive `.m3u8` substring; on the example document with
`src="https://cdn.example/x.m3u8"` it returns exactly that URL; the
case-insensitivity follows `re.IGNORECASE`'s Unicode fold, under which
U+017F is equivalent to `s` in `https` and `src`. -/
theorem claim_C6_locator :
    (∀ (html : String) (u : Chars),
      searchWith matchP1At html.data = some u → locateStr html = some ⟨u⟩) ∧
    (∀ (html : String) (u : Chars),
      searchWith matchP1At html.data = none →
      searchWith matchP2At html.data = some u → locateStr html = some ⟨u⟩) ∧
    (∀ (html : String) (u : Chars),
      searchWith matchP1At html.data = none →
      searchWith matchP2At html.data = none →
      searchWith matchP3At html.data = some u → locateStr html = some ⟨u⟩) ∧
    (∀ (html : String) (u : Chars),
      searchWith matchP1At html.data = none →
      searchWith matchP2At html.data = none →
      searchWith matchP3At html.data = none →
      searchWith matchP4At html.data = some u → locateStr html = some ⟨u⟩) ∧
    (∀ html : String,
      searchWith matchP1At html.data = none →
      searchWith matchP2At html.data = none →
      searchWith matchP3At html.data = none →
      searchWith matchP4At html.data = none → locateStr html = none) ∧
    (∀ html : String, hasSeqCI m3u8Pat html.data = false → locateStr html = none) ∧
    locateStr exampleEmbedHtml = some "https://cdn.example/x.m3u8" ∧
    locateStr exampleLongSHtml = some "httpſ://cdn/x.m3u8" ∧
    locateStr exampleLongSrcHtml = some "https://a/x.m3u8" := by
  have hfull : ∀ (html : String), locateStr html = (locateL html.data).map (fun l => ⟨l⟩) :=
    fun _ => rfl
  refine ⟨?_, ?_, ?_, ?_, ?_, ?_, rfl, rfl, rfl⟩
  · intro html u h1
    rw [hfull]
    unfold locateL
    rw [h1]
    rfl
  · intro html u h1 h2
    rw [hfull]
    unfold locateL
    rw [h1, h2]
    rfl
  · intro html u h1 h2 h3
    rw [hfull]
    unfold locateL
    rw [h1, h2, h3]
    rfl
  · intro html u h1 h2 h3 h4
    rw [hfull]
    unfold locateL
    rw [h1, h2, h3, h4]
    rfl
  · intro html h1 h2 h3 h4
    rw [hfull]
    unfold locateL
    rw [h1, h2, h3, h4]
    rfl
  · intro html hno
    rw [hfull]
    cases hloc : locateL html.data with
    | none => rfl
    | some u => exact absurd (locateL_some_m3u8 hloc) (by rw [hno]; simp)

/-- C6 witness: the locator on a document with no `.m3u8` substring. -/
theorem claim_C6_witness : locateStr "<p>hello</p>" = none :=
  claim_C6_locator.2.2.2.2.2.1 "<p>hello</p>" (by decide)

/-- C10 witness: the amended claim applied to a concrete manifest and
base. -/
theorem claim_C10_witness :
    rewriteStrE "#EXTM3U\nhttps://h/p/seg.ts\n" "https://h/p/m.m3u8" =
      .ok "#EXTM3U\nhttps://h/p/seg.ts\n" :=
  claim_C10_idempotent "#EXTM3U\nseg.ts\n" "https://h/p/m.m3u8"
    "#EXTM3U\nhttps://h/p/seg.ts\n" (Or.inr (by decide)) (by decide) (by decide) rfl

/-! ### Facts about the job runner -/

/-- Inversion of a successful run: all five effectful steps succeeded, the
outcome carries the output path and manifest URL, and the effect log is
exactly mkdir, the two fetches, and the write. -/
theorem run_success_shape (env : Env)
    (stream_id referer country subdivision folder_name : String)
    (h : (download_stream_manifest env stream_id referer country subdivision
      folder_name).1.success = true) :
    ∃ u content,
      download_stream_manifest env stream_id referer country subdivision folder_name =
        ({ success := true,
           message := "M3U8 file successfully downloaded and processed",
           file_path := some (output_file_of country subdivision folder_name stream_id),
           m3u8_url := some u },
         [Effect.mkdir (folder_path_of country subdivision folder_name),
          Effect.fetch (embed_url_of stream_id),
          Effect.fetch u,
          Effect.write (output_file_of country subdivision folder_name stream_id) content]) := by
  unfold download_stream_manifest at h ⊢
  dsimp only at h ⊢
  cases hmk : env.makedirs (folder_path_of country subdivision folder_name) with
  | error e =>
    rw [hmk] at h
    simp [errOutcome] at h
  | ok v =>
    rw [hmk] at h
    try dsimp only at h
    try dsimp only
    cases hf1 : env.fetch (embed_url_of stream_id) with
    | error e =>
      rw [hf1] at h
      simp [errOutcome] at h
    | ok resp =>
      rw [hf1] at h
      try dsimp only at h
      try dsimp only
      by_cases hst : resp.status_code ≠ 200
      · rw [if_pos hst] at h
        simp at h
      · rw [if_neg hst] at h ⊢
        cases hloc : locateStr resp.text with
        | none =>
          rw [hloc] at h
          simp at h
        | some u =>
          rw [hloc] at h
          try dsimp only at h
          try dsimp only
          cases hf2 : env.fetch u with
          | error e =>
            rw [hf2] at h
            simp [errOutcome] at h
          | ok mresp =>
            rw [hf2] at h
            try dsimp only at h
            try dsimp only
            by_cases hst2 : mresp.status_code ≠ 200
            · rw [if_pos hst2] at h
              simp at h
            · rw [if_neg hst2] at h ⊢
              cases hw : env.write
                  (output_file_of country subdivision folder_name stream_id)
                  (rewriteStr mresp.text u) with
              | error e =>
                rw [hw] at h
                simp [errOutcome] at h
              | ok v2 =>
                exact ⟨u, rewriteStr mresp.text u, rfl⟩

/-! ### Claims about the job runner -/

/-- An environment in which every fetch answers with HTTP status 404. -/
def env404 : Env :=
  ⟨fun _ => .ok (), fun _ => .ok ⟨404, ""⟩, fun _ _ => .ok ()⟩

/-- An environment whose directory creation raises. -/
def envFsErr : Env :=
  ⟨fun _ => .error "permission denied", fun _ => .ok ⟨200, ""⟩, fun _ _ => .ok ()⟩

/-- An environment driving one job to success: the embed page holds a
double-quoted m3u8 source, the manifest fetch returns a one-line relative
manifest. -/
def envOkC1 : Env :=
  ⟨fun _ => .ok (),
   fun url =>
     if url = "https://embed.galata.ai/embed/s1" then
       .ok ⟨200, "<video src=" ++ quoteS ++ "https://h/x.m3u8" ++ quoteS ++ ">"⟩
     else if url = "https://h/x.m3u8" then .ok ⟨200, "seg.ts"⟩
     else .ok ⟨404, ""⟩,
   fun _ _ => .ok ()⟩

/-- C1, counterexample to the claim as stated: a successful run writes and
reports `<country>/<subdivision>/<folder_name>/<streamID>.m3u8`, not
`<streamID>.manifest`. -/
theorem claim_C1_counterexample :
    (download_stream_manifest envOkC1 "s1" "r" "TR" "53" "rize").1.success = true ∧
    (download_stream_manifest envOkC1 "s1" "r" "TR" "53" "rize").1.file_path =
      some "TR/53/rize/s1.m3u8" ∧
    (download_stream_manifest envOkC1 "s1" "r" "TR" "53" "rize").2 =
      [Effect.mkdir "TR/53/rize", Effect.fetch "https://embed.galata.ai/embed/s1",
       Effect.fetch "https://h/x.m3u8",
       Effect.write "TR/53/rize/s1.m3u8" "https://h/seg.ts"] ∧
    ("TR/53/rize/s1.m3u8" : String) ≠ "TR/53/rize/s1.manifest" :=
  ⟨rfl, rfl, rfl, by decide⟩

/-- C1 (amended): every successful run reports
`os.path.join(country, subdivision, folder_name, streamID + ".m3u8")` as
its file path, has issued the directory-creation call for the folder and
completed a write at that path; for slash-free nonempty components the
path is the plain `<country>/<subdivision>/<folder_name>/<streamID>.m3u8`
formula. -/
theorem claim_C1_output_path :
    (∀ (env : Env) (stream_id referer country subdivision folder_name : String),
      (download_stream_manifest env stream_id referer country subdivision
        folder_name).1.success = true →
      (download_stream_manifest env stream_id referer country subdivision
        folder_name).1.file_path =
          some (output_file_of country subdivision folder_name stream_id) ∧
      Effect.mkdir (folder_path_of country subdivision folder_name) ∈
        (download_stream_manifest env stream_id referer country subdivision
          folder_name).2 ∧
      (∃ content, Effect.write
        (output_file_of country subdivision folder_name stream_id) content ∈
        (download_stream_manifest env stream_id referer country subdivision
          folder_name).2)) ∧
    (∀ country subdivision folder_name stream_id : String,
      ¬ startsL ['/'] subdivision.data = true →
      ¬ startsL ['/'] folder_name.data = true →
      ¬ startsL ['/'] (stream_id ++ ".m3u8").data = true →
      country.data ≠ [] → subdivision.data ≠ [] → folder_name.data ≠ [] →
      country.data.getLast? ≠ some '/' → subdivision.data.getLast? ≠ some '/' →
      folder_name.data.getLast? ≠ some '/' →
      output_file_of country subdivision folder_name stream_id =
        country ++ "/" ++ subdivision ++ "/" ++ folder_name ++ "/" ++
          stream_id ++ ".m3u8") := by
  constructor
  · intro env stream_id referer country subdivision folder_name h
    obtain ⟨u, content, heq⟩ := run_success_shape env stream_id referer country
      subdivision folder_name h
    rw [heq]
    refine ⟨rfl, List.mem_cons_self _ _, content, ?_⟩
    simp
  · intro country subdivision folder_name stream_id h1 h2 h3 hc hs hf hcl hsl hfl
    have join1 : posixJoin country subdivision = country ++ "/" ++ subdivision := by
      unfold posixJoin
      rw [if_neg h1, if_neg (by simp [hc, hcl])]
      apply String.ext
      simp [String.data_append]
    have hne1 : (country ++ "/" ++ subdivision).data ≠ [] := by
      simp [String.data_append, hs]
    have hlast1 : (country ++ "/" ++ subdivision).data.getLast? ≠ some '/' := by
      rw [show (country ++ "/" ++ subdivision).data =
        (country.data ++ '/' :: []) ++ subdivision.data by simp [String.data_append]]
      rw [List.getLast?_append_of_ne_nil _ hs]
      exact hsl
    have join2 : posixJoin (posixJoin country subdivision) folder_name =
        country ++ "/" ++ subdivision ++ "/" ++ folder_name := by
      rw [join1]
      unfold posixJoin
      rw [if_neg h2, if_neg (not_or.mpr ⟨hne1, hlast1⟩)]
      apply String.ext
      simp [String.data_append]
    have hne2 : (country ++ "/" ++ subdivision ++ "/" ++ folder_name).data ≠ [] := by
      simp [String.data_append, hf]
    have hlast2 : (country ++ "/" ++ subdivision ++ "/" ++
        folder_name).data.getLast? ≠ some '/' := by
      rw [show (country ++ "/" ++ subdivision ++ "/" ++ folder_name).data =
        ((country ++ "/" ++ subdivision).data ++ '/' :: []) ++ folder_name.data by
          simp [String.data_append]]
      rw [List.getLast?_append_of_ne_nil _ hf]
      exact hfl
    unfold output_file_of folder_path_of
    rw [join2]
    unfold posixJoin
    rw [if_neg h3, if_neg (not_or.mpr ⟨hne2, hlast2⟩)]
    apply String.ext
    simp [String.data_append]

/-- C1 witness: the amended claim applied to a concrete successful run and
to concrete path components. -/
theorem claim_C1_witness :
    ((download_stream_manifest envOkC1 "s1" "r" "TR" "53" "rize").1.file_path =
      some (output_file_of "TR" "53" "rize" "s1") ∧
    Effect.mkdir (folder_path_of "TR" "53" "rize") ∈
      (download_stream_manifest envOkC1 "s1" "r" "TR" "53" "rize").2 ∧
    (∃ content, Effect.write (output_file_of "TR" "53" "rize" "s1") content ∈
      (download_stream_manifest envOkC1 "s1" "r" "TR" "53" "rize").2)) ∧
    output_file_of "TR" "53" "rize" "s1" =
      "TR" ++ "/" ++ "53" ++ "/" ++ "rize" ++ "/" ++ "s1" ++ ".m3u8" :=
  ⟨claim_C1_output_path.1 envOkC1 "s1" "r" "TR" "53" "rize" rfl,
   claim_C1_output_path.2 "TR" "53" "rize" "s1" (by decide) (by decide) (by decide)
     (by decide) (by decide) (by decide) (by decide) (by decide) (by decide)⟩

/-! ### Further facts about the job runner -/

/-- A suffix of a concatenation is a substring of it. -/
theorem strInfix_suffix (p s : String) : strInfix s (p ++ s) := by
  unfold strInfix
  refine (hasSeq_iff s.data _).2 ⟨p.data, [], ?_⟩
  simp [String.data_append]

/-- In every run — succeeding or failing at any step — the first logged
effect is the directory creation: `os.makedirs` runs before both fetches. -/
theorem run_log_head (env : Env)
    (stream_id referer country subdivision folder_name : String) :
    (download_stream_manifest env stream_id referer country subdivision
      folder_name).2.head? =
    some (Effect.mkdir (folder_path_of country subdivision folder_name)) := by
  unfold download_stream_manifest
  dsimp only
  cases env.makedirs (folder_path_of country subdivision folder_name) with
  | error e => rfl
  | ok v =>
    dsimp only
    cases env.fetch (embed_url_of stream_id) with
    | error e => rfl
    | ok resp =>
      dsimp only
      by_cases hst : resp.status_code ≠ 200
      · rw [if_pos hst]
        rfl
      · rw [if_neg hst]
        cases locateStr resp.text with
        | none => rfl
        | some u =>
          dsimp only
          cases env.fetch u with
          | error e => rfl
          | ok mresp =>
            dsimp only
            by_cases hst2 : mresp.status_code ≠ 200
            · rw [if_pos hst2]
              rfl
            · rw [if_neg hst2]
              try dsimp only
              cases env.write
                  (output_file_of country subdivision folder_name stream_id)
                  (rewriteStr mresp.text u) with
              | error e => rfl
              | ok v2 => rfl

/-- Inversion of a failed run: the outcome carries no file path and the
effect log holds no write. -/
theorem run_fail_shape (env : Env)
    (stream_id referer country subdivision folder_name : String)
    (h : (download_stream_manifest env stream_id referer country subdivision
      folder_name).1.success = false) :
    (download_stream_manifest env stream_id referer country subdivision
      folder_name).1.file_path = none ∧
    ∀ p c, Effect.write p c ∉
      (download_stream_manifest env stream_id referer country subdivision
        folder_name).2 := by
  unfold download_stream_manifest at h ⊢
  dsimp only at h ⊢
  cases hmk : env.makedirs (folder_path_of country subdivision folder_name) with
  | error e =>
    exact ⟨rfl, fun p c hp => by simp [errOutcome] at hp⟩
  | ok v =>
    rw [hmk] at h
    try dsimp only at h
    try dsimp only
    cases hf1 : env.fetch (embed_url_of stream_id) with
    | error e =>
      exact ⟨rfl, fun p c hp => by simp [errOutcome] at hp⟩
    | ok resp =>
      rw [hf1] at h
      try dsimp only at h
      try dsimp only
      by_cases hst : resp.status_code ≠ 200
      · rw [if_pos hst] at h ⊢
        exact ⟨rfl, fun p c hp => by simp at hp⟩
      · rw [if_neg hst] at h ⊢
        cases hloc : locateStr resp.text with
        | none =>
          exact ⟨rfl, fun p c hp => by simp at hp⟩
        | some u =>
          rw [hloc] at h
          try dsimp only at h
          try dsimp only
          cases hf2 : env.fetch u with
          | error e =>
            exact ⟨rfl, fun p c hp => by simp [errOutcome] at hp⟩
          | ok mresp =>
            rw [hf2] at h
            try dsimp only at h
            try dsimp only
            by_cases hst2 : mresp.status_code ≠ 200
            · rw [if_pos hst2] at h ⊢
              exact ⟨rfl, fun p c hp => by simp at hp⟩
            · rw [if_neg hst2] at h ⊢
              cases hw : env.write
                  (output_file_of country subdivision folder_name stream_id)
                  (rewriteStr mresp.text u) with
              | error e =>
                exact ⟨rfl, fun p c hp => by simp [errOutcome] at hp⟩
              | ok v2 =>
                rw [hw] at h
                simp at h

/-- C3, counterexample to the claim as stated: on a run whose embed fetch
answers 404 the job fails, yet the directory-creation side effect has
already been performed — directory creation is not reserved to successful
runs, and does not wait for locate, fetch and rewrite. -/
theorem claim_C3_counterexample :
    (download_stream_manifest env404 "s1" "r" "TR" "53" "rize").1.success = false ∧
    Effect.mkdir "TR/53/rize" ∈
      (download_stream_manifest env404 "s1" "r" "TR" "53" "rize").2 ∧
    strInfix "404"
      (download_stream_manifest env404 "s1" "r" "TR" "53" "rize").1.message ∧
    (download_stream_manifest env404 "s1" "r" "TR" "53" "rize").2 =
      [Effect.mkdir "TR/53/rize",
       Effect.fetch "https://embed.galata.ai/embed/s1"] :=
  ⟨rfl, by decide, by unfold strInfix; decide, by decide⟩

/-- C3 (amended): the runner creates the nested directory unconditionally
as its very first effect, before any fetch, on failing runs as well; the
file write alone is reserved to success — every failed run returns no
file path and has written nothing. -/
theorem claim_C3_effects :
    (∀ (env : Env) (stream_id referer country subdivision folder_name : String),
      (download_stream_manifest env stream_id referer country subdivision
        folder_name).2.head? =
      some (Effect.mkdir (folder_path_of country subdivision folder_name))) ∧
    (∀ (env : Env) (stream_id referer country subdivision folder_name : String),
      (download_stream_manifest env stream_id referer country subdivision
        folder_name).1.success = false →
      (download_stream_manifest env stream_id referer country subdivision
        folder_name).1.file_path = none ∧
      ∀ p c, Effect.write p c ∉
        (download_stream_manifest env stream_id referer country subdivision
          folder_name).2) :=
  ⟨fun env a b c d e => run_log_head env a b c d e,
   fun env a b c d e h => run_fail_shape env a b c d e h⟩

/-- C3 witness: the amended claim applied to the 404 environment. -/
theorem claim_C3_witness :
    (download_stream_manifest env404 "s1" "r" "TR" "53" "rize").2.head? =
      some (Effect.mkdir (folder_path_of "TR" "53" "rize")) ∧
    (download_stream_manifest env404 "s1" "r" "TR" "53" "rize").1.file_path =
      none ∧
    Effect.write "TR/53/rize/s1.m3u8" "x" ∉
      (download_stream_manifest env404 "s1" "r" "TR" "53" "rize").2 :=
  ⟨claim_C3_effects.1 env404 "s1" "r" "TR" "53" "rize",
   (claim_C3_effects.2 env404 "s1" "r" "TR" "53" "rize" rfl).1,
   (claim_C3_effects.2 env404 "s1" "r" "TR" "53" "rize" rfl).2
     "TR/53/rize/s1.m3u8" "x"⟩

/-- C7: a non-200 status on either fetch fails the job with the status
code in the message, and the effect log shows each fetch issued exactly
once with nothing after the failing one — no retry, no further step. -/
theorem claim_C7_status :
    (∀ (env : Env) (stream_id referer country subdivision folder_name : String)
      (resp : FetchResult),
      env.makedirs (folder_path_of country subdivision folder_name) = .ok () →
      env.fetch (embed_url_of stream_id) = .ok resp →
      resp.status_code ≠ 200 →
      download_stream_manifest env stream_id referer country subdivision
        folder_name =
        ({ success := false,
           message := "Failed to fetch embed page. HTTP Status: " ++
             toString resp.status_code,
           file_path := none, m3u8_url := none },
         [Effect.mkdir (folder_path_of country subdivision folder_name),
          Effect.fetch (embed_url_of stream_id)]) ∧
      strInfix (toString resp.status_code)
        (download_stream_manifest env stream_id referer country subdivision
          folder_name).1.message) ∧
    (∀ (env : Env) (stream_id referer country subdivision folder_name : String)
      (resp : FetchResult) (u : String) (mresp : FetchResult),
      env.makedirs (folder_path_of country subdivision folder_name) = .ok () →
      env.fetch (embed_url_of stream_id) = .ok resp →
      resp.status_code = 200 →
      locateStr resp.text = some u →
      env.fetch u = .ok mresp →
      mresp.status_code ≠ 200 →
      download_stream_manifest env stream_id referer country subdivision
        folder_name =
        ({ success := false,
           message := "Failed to fetch M3U8 file. HTTP Status: " ++
             toString mresp.status_code,
           file_path := none, m3u8_url := none },
         [Effect.mkdir (folder_path_of country subdivision folder_name),
          Effect.fetch (embed_url_of stream_id),
          Effect.fetch u]) ∧
      strInfix (toString mresp.status_code)
        (download_stream_manifest env stream_id referer country subdivision
          folder_name).1.message) := by
  constructor
  · intro env stream_id referer country subdivision folder_name resp hmk hf hst
    have heq : download_stream_manifest env stream_id referer country subdivision
        folder_name =
        ({ success := false,
           message := "Failed to fetch embed page. HTTP Status: " ++
             toString resp.status_code,
           file_path := none, m3u8_url := none },
         [Effect.mkdir (folder_path_of country subdivision folder_name),
          Effect.fetch (embed_url_of stream_id)]) := by
      unfold download_stream_manifest
      dsimp only
      rw [hmk]
      dsimp only
      rw [hf]
      dsimp only
      rw [if_pos hst]
      rfl
    rw [heq]
    exact ⟨rfl, strInfix_suffix _ _⟩
  · intro env stream_id referer country subdivision folder_name resp u mresp
      hmk hf hst hloc hf2 hst2
    have heq : download_stream_manifest env stream_id referer country subdivision
        folder_name =
        ({ success := false,
           message := "Failed to fetch M3U8 file. HTTP Status: " ++
             toString mresp.status_code,
           file_path := none, m3u8_url := none },
         [Effect.mkdir (folder_path_of country subdivision folder_name),
          Effect.fetch (embed_url_of stream_id),
          Effect.fetch u]) := by
      unfold download_stream_manifest
      dsimp only
      rw [hmk]
      dsimp only
      rw [hf]
      dsimp only
      rw [if_neg (not_not_intro hst), hloc]
      dsimp only
      rw [hf2]
      dsimp only
      rw [if_pos hst2]
      rfl
    rw [heq]
    exact ⟨rfl, strInfix_suffix _ _⟩

/-- C7 witness: the first conjunct applied to the all-404 environment. -/
theorem claim_C7_witness :
    download_stream_manifest env404 "s1" "r" "TR" "53" "rize" =
      ({ success := false,
         message := "Failed to fetch embed page. HTTP Status: " ++ toString 404,
         file_path := none, m3u8_url := none },
       [Effect.mkdir (folder_path_of "TR" "53" "rize"),
        Effect.fetch (embed_url_of "s1")]) ∧
    strInfix (toString 404)
      (download_stream_manifest env404 "s1" "r" "TR" "53" "rize").1.message :=
  claim_C7_status.1 env404 "s1" "r" "TR" "53" "rize" ⟨404, ""⟩ rfl rfl (by decide)

/-- C8: an error raised by any effectful step — directory creation, either
fetch, or the file write — is caught at the job boundary and turned into
the failure outcome `Error: <description>` with a null file path; the
modelled runner is a total function, so no exception escapes it. -/
theorem claim_C8_boundary :
    (∀ (env : Env) (stream_id referer country subdivision folder_name e : String),
      env.makedirs (folder_path_of country subdivision folder_name) = .error e →
      download_stream_manifest env stream_id referer country subdivision
        folder_name =
        (errOutcome e,
         [Effect.mkdir (folder_path_of country subdivision folder_name)])) ∧
    (∀ (env : Env) (stream_id referer country subdivision folder_name e : String),
      env.makedirs (folder_path_of country subdivision folder_name) = .ok () →
      env.fetch (embed_url_of stream_id) = .error e →
      download_stream_manifest env stream_id referer country subdivision
        folder_name =
        (errOutcome e,
         [Effect.mkdir (folder_path_of country subdivision folder_name),
          Effect.fetch (embed_url_of stream_id)])) ∧
    (∀ (env : Env) (stream_id referer country subdivision folder_name e : String)
      (resp : FetchResult) (u : String),
      env.makedirs (folder_path_of country subdivision folder_name) = .ok () →
      env.fetch (embed_url_of stream_id) = .ok resp →
      resp.status_code = 200 →
      locateStr resp.text = some u →
      env.fetch u = .error e →
      download_stream_manifest env stream_id referer country subdivision
        folder_name =
        (errOutcome e,
         [Effect.mkdir (folder_path_of country subdivision folder_name),
          Effect.fetch (embed_url_of stream_id),
          Effect.fetch u])) ∧
    (∀ (env : Env) (stream_id referer country subdivision folder_name e : String)
      (resp : FetchResult) (u : String) (mresp : FetchResult),
      env.makedirs (folder_path_of country subdivision folder_name) = .ok () →
      env.fetch (embed_url_of stream_id) = .ok resp →
      resp.status_code = 200 →
      locateStr resp.text = some u →
      env.fetch u = .ok mresp →
      mresp.status_code = 200 →
      env.write (output_file_of country subdivision folder_name stream_id)
        (rewriteStr mresp.text u) = .error e →
      download_stream_manifest env stream_id referer country subdivision
        folder_name =
        (errOutcome e,
         [Effect.mkdir (folder_path_of country subdivision folder_name),
          Effect.fetch (embed_url_of stream_id),
          Effect.fetch u])) ∧
    (∀ e : String,
      errOutcome e = ⟨false, "Error: " ++ e, none, none⟩ ∧
      strInfix e (errOutcome e).message) := by
  refine ⟨?_, ?_, ?_, ?_, fun e => ⟨rfl, strInfix_suffix "Error: " e⟩⟩
  · intro env stream_id referer country subdivision folder_name e hmk
    unfold download_stream_manifest
    dsimp only
    rw [hmk]
  · intro env stream_id referer country subdivision folder_name e hmk hf
    unfold download_stream_manifest
    dsimp only
    rw [hmk]
    dsimp only
    rw [hf]
    rfl
  · intro env stream_id referer country subdivision folder_name e resp u
      hmk hf hst hloc hf2
    unfold download_stream_manifest
    dsimp only
    rw [hmk]
    dsimp only
    rw [hf]
    dsimp only
    rw [if_neg (not_not_intro hst), hloc]
    dsimp only
    rw [hf2]
    rfl
  · intro env stream_id referer country subdivision folder_name e resp u mresp
      hmk hf hst hloc hf2 hst2 hw
    unfold download_stream_manifest
    dsimp only
    rw [hmk]
    dsimp only
    rw [hf]
    dsimp only
    rw [if_neg (not_not_intro hst), hloc]
    dsimp only
    rw [hf2]
    dsimp only
    rw [if_neg (not_not_intro hst2)]
    try dsimp only
    rw [hw]
    rfl

/-- C8 witness: the first conjunct applied to the environment whose
directory creation raises. -/
theorem claim_C8_witness :
    download_stream_manifest envFsErr "s1" "r" "TR" "53" "rize" =
      (errOutcome "permission denied",
       [Effect.mkdir (folder_path_of "TR" "53" "rize")]) ∧
    errOutcome "permission denied" =
      ⟨false, "Error: permission denied", none, none⟩ :=
  ⟨claim_C8_boundary.1 envFsErr "s1" "r" "TR" "53" "rize" "permission denied" rfl,
   (claim_C8_boundary.2.2.2.2 "permission denied").1⟩

/-! ### Facts about the batch orchestrator -/

/-- The outcome dictionary of one configured stream's job. -/
def jobOutcome (env : Env) (s : StreamRec) : Outcome :=
  (download_stream_manifest env s.stream_id s.referer s.country s.subdivision
    s.folder_name).1

/-- The `failed_streams` entry the batch loop builds for a failed stream. -/
def mkFailure (env : Env) (s : StreamRec) : FailureRec :=
  { name := s.name,
    location := s.country ++ "/" ++ s.subdivision ++ "/" ++ s.folder_name,
    stream_id := s.stream_id,
    error := (jobOutcome env s).message }

/-- One attempt per job in input order, with one sleep after every job but
the last. -/
def expectedEvents (delay : Nat) : List StreamRec → List BatchEv
  | [] => []
  | [s] => [BatchEv.attempt s.stream_id]
  | s :: rest => BatchEv.attempt s.stream_id :: BatchEv.sleep delay ::
      expectedEvents delay rest

theorem countP_split {α : Type} (p : α → Bool) :
    ∀ l : List α, l.countP p + l.countP (fun a => !p a) = l.length := by
  intro l
  induction l with
  | nil => rfl
  | cons a as ih =>
    rw [List.countP_cons, List.countP_cons]
    cases h : p a <;> simp [h] <;> omega

theorem countP_not_filterMap_length {α β : Type} (p : α → Bool) (f : α → β) :
    ∀ l : List α, l.countP (fun a => !p a) =
      (l.filterMap (fun a => if p a then none else some (f a))).length := by
  intro l
  induction l with
  | nil => rfl
  | cons a as ih =>
    rw [List.countP_cons, List.filterMap_cons]
    cases h : p a <;> simp [h, ih]

/-- One unfolding step of the batch loop on a nonempty job list. -/
theorem batchGo_cons (env : Env) (delay n idx : Nat) (s : StreamRec)
    (rest : List StreamRec) :
    batchGo env delay n idx (s :: rest) =
      (if (jobOutcome env s).success then
        ((batchGo env delay n (idx + 1) rest).1 + 1,
         (batchGo env delay n (idx + 1) rest).2.1,
         (batchGo env delay n (idx + 1) rest).2.2.1,
         BatchEv.attempt s.stream_id ::
           ((if idx < n then [BatchEv.sleep delay] else []) ++
             (batchGo env delay n (idx + 1) rest).2.2.2))
      else
        ((batchGo env delay n (idx + 1) rest).1,
         (batchGo env delay n (idx + 1) rest).2.1 + 1,
         mkFailure env s :: (batchGo env delay n (idx + 1) rest).2.2.1,
         BatchEv.attempt s.stream_id ::
           ((if idx < n then [BatchEv.sleep delay] else []) ++
             (batchGo env delay n (idx + 1) rest).2.2.2))) := rfl

/-- Closed form of the batch loop under the enumeration invariant
`n + 1 = idx + js.length` (true for the initial call with `idx = 1` and
`n = len(streams)`): counts are the numbers of succeeding and failing
jobs, the failure list collects one record per failing job in order, and
the events are one attempt per job with a sleep after each but the last. -/
theorem batchGo_spec (env : Env) (delay n : Nat) :
    ∀ (js : List StreamRec) (idx : Nat), n + 1 = idx + js.length →
    batchGo env delay n idx js =
      (js.countP (fun s => (jobOutcome env s).success),
       js.countP (fun s => !(jobOutcome env s).success),
       js.filterMap (fun s => if (jobOutcome env s).success then none
         else some (mkFailure env s)),
       expectedEvents delay js) := by
  intro js
  induction js with
  | nil => intro idx h; rfl
  | cons s rest ih =>
    intro idx h
    simp only [List.length_cons] at h
    have htail := ih (idx + 1) (by omega)
    cases rest with
    | nil =>
      simp only [List.length_nil] at h
      have hidx : ¬ idx < n := by omega
      rw [batchGo_cons, htail, if_neg hidx]
      cases hs : (jobOutcome env s).success with
      | true =>
        simp [hs, expectedEvents, List.countP_cons, List.countP_nil,
          List.filterMap_cons, List.filterMap_nil]
      | false =>
        simp [hs, expectedEvents, List.countP_cons, List.countP_nil,
          List.filterMap_cons, List.filterMap_nil]
    | cons r rs =>
      have hidx : idx < n := by
        simp only [List.length_cons] at h
        omega
      rw [batchGo_cons, htail, if_pos hidx]
      cases hs : (jobOutcome env s).success with
      | true =>
        simp [hs, expectedEvents, List.countP_cons, List.filterMap_cons]
      | false =>
        simp [hs, expectedEvents, List.countP_cons, List.filterMap_cons]

/-- First job of the concrete three-stream batch. -/
def job1 : StreamRec := ⟨"TR", "34", "galata", "s1", "Cam1", "r1"⟩

/-- Second job; its embed page holds no manifest URL. -/
def job2 : StreamRec := ⟨"TR", "34", "galata", "s2", "Cam2", "r2"⟩

/-- Third job of the concrete three-stream batch. -/
def job3 : StreamRec := ⟨"TR", "34", "galata", "s3", "Cam3", "r3"⟩

/-- A batch environment: the embed pages of jobs 1 and 3 carry a manifest
URL and their manifests fetch cleanly; job 2's embed page contains no
manifest URL, so its job fails with the locator-miss message. -/
def envBatch3 : Env :=
  ⟨fun _ => .ok (),
   fun url =>
     if url = "https://embed.galata.ai/embed/s1" then
       .ok ⟨200, "<video src=" ++ quoteS ++ "https://h/a.m3u8" ++ quoteS ++ ">"⟩
     else if url = "https://embed.galata.ai/embed/s2" then
       .ok ⟨200, "<p>no stream here</p>"⟩
     else if url = "https://embed.galata.ai/embed/s3" then
       .ok ⟨200, "<video src=" ++ quoteS ++ "https://h/c.m3u8" ++ quoteS ++ ">"⟩
     else if url = "https://h/a.m3u8" then .ok ⟨200, "seg.ts"⟩
     else if url = "https://h/c.m3u8" then .ok ⟨200, "#EXTM3U"⟩
     else .ok ⟨404, ""⟩,
   fun _ _ => .ok ()⟩

/-- C9: the batch attempts every job exactly once in input order with one
sleep after each job but the last, and returns the summary with
total = number of jobs, successful + failed = total, and one failure
record (name, location, stream id, error message) per failed job, in
order; on the concrete three-job batch whose second job misses the
locator, the summary is total 3, successful 2, failed 1 with Cam2's
record. -/
theorem claim_C9_batch :
    (∀ (env : Env) (streams : List StreamRec) (delay : Nat),
      process_all_streams env streams delay =
        (⟨streams.length,
          streams.countP (fun s => (jobOutcome env s).success),
          streams.countP (fun s => !(jobOutcome env s).success),
          streams.filterMap (fun s => if (jobOutcome env s).success then none
            else some (mkFailure env s))⟩,
         expectedEvents delay streams) ∧
      (process_all_streams env streams delay).1.successful +
        (process_all_streams env streams delay).1.failed = streams.length ∧
      (process_all_streams env streams delay).1.failed =
        (process_all_streams env streams delay).1.failed_streams.length) ∧
    process_all_streams envBatch3 [job1, job2, job3] 2 =
      (⟨3, 2, 1,
        [⟨"Cam2", "TR/34/galata", "s2", "M3U8 URL not found in embed page"⟩]⟩,
       [BatchEv.attempt "s1", BatchEv.sleep 2, BatchEv.attempt "s2",
        BatchEv.sleep 2, BatchEv.attempt "s3"]) := by
  constructor
  · intro env streams delay
    have hrun := batchGo_spec env delay streams.length streams 1 (by omega)
    have heq : process_all_streams env streams delay =
        (⟨streams.length,
          streams.countP (fun s => (jobOutcome env s).success),
          streams.countP (fun s => !(jobOutcome env s).success),
          streams.filterMap (fun s => if (jobOutcome env s).success then none
            else some (mkFailure env s))⟩,
         expectedEvents delay streams) := by
      unfold process_all_streams
      rw [hrun]
    refine ⟨heq, ?_, ?_⟩
    · rw [heq]
      exact countP_split _ streams
    · rw [heq]
      exact countP_not_filterMap_length _ _ streams
  · rfl

end GalataAi
